import Mathlib

/-!
# Vector and Matrix of `promenu.cpp`

A shallow embedding of the two class templates of `src/promenu.cpp`, at the
element type the program instantiates them with (`Vector<int>`, `Matrix<int>`).

Modelling conventions.

* `int` is embedded twice.  The definitions under `Vector` and `Matrix` compute in
  `Int`: signed overflow is undefined behaviour in C++, and these definitions
  describe the executions in which no arithmetic overflows.  They carry the
  properties of guards and shapes and the properties stated for executions without
  overflow.  The definitions under `Machine` compute on the 32-bit two's complement
  `int` of the built program, where `+`, `-`, `*` wrap modulo `2^32`; they carry the
  properties of computed values.  The two are proved equal wherever the exact
  values are in the range of `int`.
* `std::vector<T>` is a `List`.  `std::vector<T>(n)` value-initialises its
  elements, i.e. fills with `0`.
* `v[i]` with `i` out of range is undefined behaviour in C++.  The embedding
  reads `0` (or the empty row) there and ignores the write; the loops of the
  source only use indices below the sizes they were computed from.
* `throw invalid_argument(msg)` is `Except.error (Exception.invalid_argument msg)`.
* A `for (size_t i = 0; i < n; ++i)` loop over a mutable local is a left fold
  over `List.range n` that threads the local through.
* `/` on `int` truncates toward zero: `Int.tdiv`.
* `T x = sqrt(e)` at `T = int` calls `std::sqrt` on the `int` taken as a `double`
  and truncates the result back to `int`.  For `0 <= e < 2^31` the correctly
  rounded double square root lies in `[n, n + 1)` for the integer `n` with
  `n*n <= e < (n+1)*(n+1)`, so the stored value is that `n`: `sqrt` below.
  For `e < 0` the library returns NaN and its conversion to `int` is undefined;
  `sqrt` reads `0` there and no theorem depends on it, and `Machine.isqrt` has no
  result there.
-/

namespace Promenu

/-- The exception type thrown by the library: `std::invalid_argument` with its message. -/
inductive Exception where
  | invalid_argument (what : String)
  deriving DecidableEq, Repr

/-- Equality of results (a value or a thrown exception) is decidable. -/
instance instDecidableEqExcept {ε α : Type} [DecidableEq ε] [DecidableEq α] :
    DecidableEq (Except ε α)
  | .ok a, .ok b =>
    if h : a = b then isTrue (by rw [h]) else isFalse (by intro h2; cases h2; exact h rfl)
  | .error a, .error b =>
    if h : a = b then isTrue (by rw [h]) else isFalse (by intro h2; cases h2; exact h rfl)
  | .ok _, .error _ => isFalse (by intro h; cases h)
  | .error _, .ok _ => isFalse (by intro h; cases h)

/-- The class template `Vector<T>` at `T = int`: one private field `data`. -/
structure Vector where
  data : List Int
  deriving DecidableEq, Repr

namespace Vector

/-- The constructor `Vector(size_t size) : data(size)`. -/
def new (size : Nat) : Vector :=
  ⟨List.replicate size 0⟩

/-- The method `setElement`: `data[index] = value`. -/
def setElement (v : Vector) (index : Nat) (value : Int) : Vector :=
  ⟨v.data.set index value⟩

/-- The method `getElement`: `return data[index]`. -/
def getElement (v : Vector) (index : Nat) : Int :=
  v.data.getD index 0

/-- The method `size`: `return data.size()`. -/
def size (v : Vector) : Nat :=
  v.data.length

/-- The method `operator+` of `Vector`. -/
def add (v other : Vector) : Except Exception Vector :=
  if v.size ≠ other.size then
    .error (.invalid_argument "Vector dimensions must match for addition")
  else
    .ok ((List.range v.size).foldl
      (fun result i => result.setElement i (v.data.getD i 0 + other.getElement i))
      (Vector.new v.size))

/-- The method `operator-` of `Vector`. -/
def sub (v other : Vector) : Except Exception Vector :=
  if v.size ≠ other.size then
    .error (.invalid_argument "Vector dimensions must match for subtraction")
  else
    .ok ((List.range v.size).foldl
      (fun result i => result.setElement i (v.data.getD i 0 - other.getElement i))
      (Vector.new v.size))

/-- The method `innerProduct` of `Vector`. -/
def innerProduct (v other : Vector) : Except Exception Int :=
  if v.size ≠ other.size then
    .error (.invalid_argument "Both vectors must have the same size for inner product")
  else
    .ok ((List.range v.size).foldl
      (fun result i => result + v.data.getD i 0 * other.getElement i)
      0)

end Vector

/-- The largest `r ≤ k` with `r * r ≤ n`. -/
def sqrtAux : Nat → Nat → Nat
  | 0, _ => 0
  | k + 1, n => if (k + 1) * (k + 1) ≤ n then k + 1 else sqrtAux k n

/-- The call `sqrt(e)` of `<cmath>` on an `int`, with its result stored in an `int`:
the square root truncated to an integer. -/
def sqrt (e : Int) : Int :=
  (sqrtAux e.toNat e.toNat : Nat)

/-- The class template `Matrix<T>` at `T = int`: one private field `data`, a vector of rows. -/
structure Matrix where
  data : List (List Int)
  deriving DecidableEq, Repr

namespace Matrix

/-- The constructor `Matrix(size_t rows, size_t cols) : data(rows, vector<T>(cols))`. -/
def new (rows cols : Nat) : Matrix :=
  ⟨List.replicate rows (List.replicate cols 0)⟩

/-- The method `setElement`: `data[row][col] = value`. -/
def setElement (m : Matrix) (row col : Nat) (value : Int) : Matrix :=
  ⟨m.data.set row ((m.data.getD row []).set col value)⟩

/-- The method `getElement`: `return data[row][col]`.  The methods' own reads
`data[i][j]` are the same expression and are embedded as `getElement` too. -/
def getElement (m : Matrix) (row col : Nat) : Int :=
  (m.data.getD row []).getD col 0

/-- The method `numRows`: `return data.size()`. -/
def numRows (m : Matrix) : Nat :=
  m.data.length

/-- The method `numCols`: `return data.empty() ? 0 : data[0].size()`. -/
def numCols (m : Matrix) : Nat :=
  if m.data.isEmpty then 0 else (m.data.getD 0 []).length

/-- The method `operator*(const Matrix<T>&)`: the matrix product. -/
def mul (m other : Matrix) : Except Exception Matrix :=
  if m.numCols ≠ other.numRows then
    .error (.invalid_argument
      "Number of columns in first matrix must match number of rows in second matrix for multiplication")
  else
    .ok ((List.range m.numRows).foldl
      (fun result i => (List.range other.numCols).foldl
        (fun result j =>
          let sum := (List.range m.numCols).foldl
            (fun sum k => sum + m.getElement i k * other.getElement k j) 0
          result.setElement i j sum)
        result)
      (Matrix.new m.numRows other.numCols))

/-- The method `transpose`. -/
def transpose (m : Matrix) : Matrix :=
  (List.range m.numRows).foldl
    (fun result i => (List.range m.numCols).foldl
      (fun result j => result.setElement j i (m.getElement i j))
      result)
    (Matrix.new m.numCols m.numRows)

/-- The method `determinant`. -/
def determinant (m : Matrix) : Except Exception Int :=
  if m.numRows ≠ 2 ∨ m.numCols ≠ 2 then
    .error (.invalid_argument "Determinant calculation is only supported for 2x2 matrices")
  else
    .ok (m.getElement 0 0 * m.getElement 1 1 - m.getElement 0 1 * m.getElement 1 0)

/-- The method `inverse`.  `-data[0][1] / det` is `(-data[0][1]) / det`, and `/` truncates. -/
def inverse (m : Matrix) : Except Exception Matrix :=
  if m.numRows ≠ 2 ∨ m.numCols ≠ 2 then
    .error (.invalid_argument "Matrix inversion is only supported for 2x2 matrices")
  else do
    let det ← m.determinant
    if det = 0 then
      .error (.invalid_argument "Matrix is singular, cannot be inverted")
    else
      let result := Matrix.new 2 2
      let result := result.setElement 0 0 (Int.tdiv (m.getElement 1 1) det)
      let result := result.setElement 0 1 (Int.tdiv (-m.getElement 0 1) det)
      let result := result.setElement 1 0 (Int.tdiv (-m.getElement 1 0) det)
      let result := result.setElement 1 1 (Int.tdiv (m.getElement 0 0) det)
      .ok result

/-- The method `operator+` of `Matrix`. -/
def add (m other : Matrix) : Except Exception Matrix :=
  if m.numRows ≠ other.numRows ∨ m.numCols ≠ other.numCols then
    .error (.invalid_argument "Matrix dimensions must match for addition")
  else
    .ok ((List.range m.numRows).foldl
      (fun result i => (List.range m.numCols).foldl
        (fun result j => result.setElement i j (m.getElement i j + other.getElement i j))
        result)
      (Matrix.new m.numRows m.numCols))

/-- The method `operator-` of `Matrix`. -/
def sub (m other : Matrix) : Except Exception Matrix :=
  if m.numRows ≠ other.numRows ∨ m.numCols ≠ other.numCols then
    .error (.invalid_argument "Matrix dimensions must match for subtraction")
  else
    .ok ((List.range m.numRows).foldl
      (fun result i => (List.range m.numCols).foldl
        (fun result j => result.setElement i j (m.getElement i j - other.getElement i j))
        result)
      (Matrix.new m.numRows m.numCols))

/-- The method `operator*(T scalar)`: the scalar product.  It has no `throw`. -/
def mulScalar (m : Matrix) (scalar : Int) : Matrix :=
  (List.range m.numRows).foldl
    (fun result i => (List.range m.numCols).foldl
      (fun result j => result.setElement i j (m.getElement i j * scalar))
      result)
    (Matrix.new m.numRows m.numCols)

/-- The method `norm`.  It has no `throw`. -/
def norm (m : Matrix) : Int :=
  sqrt ((List.range m.numRows).foldl
    (fun sum i => (List.range m.numCols).foldl
      (fun sum j => sum + m.getElement i j * m.getElement i j)
      sum)
    0)

/-- The method `eigenValues`; the returned `vector<T>` is `{lambda1, lambda2}`. -/
def eigenValues (m : Matrix) : Except Exception (List Int) :=
  if m.numRows ≠ 2 ∨ m.numCols ≠ 2 then
    .error (.invalid_argument "Eigenvalues calculation is only supported for 2x2 matrices")
  else
    let a := m.getElement 0 0
    let b := m.getElement 0 1
    let c := m.getElement 1 0
    let d := m.getElement 1 1
    let discriminant := sqrt ((a + d) * (a + d) - 4 * (a * d - b * c))
    let lambda1 := Int.tdiv (a + d + discriminant) 2
    let lambda2 := Int.tdiv (a + d - discriminant) 2
    .ok [lambda1, lambda2]

/-- The sum of the squares of all elements of the storage, row by row. -/
def sumSquares (m : Matrix) : Int :=
  (m.data.map fun r => (r.map fun x => x * x).sum).sum

/-- Row `i` of the storage, `data[i]`. -/
def row (m : Matrix) (i : Nat) : List Int :=
  m.data.getD i []

/-- Rectangular storage: every row has `numCols()` elements. -/
def Rect (m : Matrix) : Prop :=
  ∀ r ∈ m.data, r.length = m.numCols

instance (m : Matrix) : Decidable m.Rect := by
  unfold Rect; infer_instance

/-- The storage of a matrix built by `Matrix(rows, cols)` and filled with `setElement`:
`rows` rows of `cols` elements each. -/
def HasShape (m : Matrix) (rows cols : Nat) : Prop :=
  m.data.length = rows ∧ ∀ r ∈ m.data, r.length = cols

instance (m : Matrix) (rows cols : Nat) : Decidable (m.HasShape rows cols) := by
  unfold HasShape; infer_instance

end Matrix

/-! ## The arithmetic of the methods on the 32-bit `int`

The definitions above compute in `Int`.  The definitions of this section are the
same methods with every `+`, `-`, `*`, unary `-` and `/` of the source taken on the
32-bit two's complement `int` of the built program: the result of `+`, `-`, `*` is
the exact result reduced modulo `2^32` into `[-2^31, 2^31)`, and a division or a
conversion without a defined result yields no result (`none`).  The two agree
whenever every exact intermediate value is in the range of `int`. -/

/-- The least `int`, `INT_MIN`. -/
def INT_MIN : Int := -2147483648

/-- The greatest `int`, `INT_MAX`. -/
def INT_MAX : Int := 2147483647

/-- The values an `int` holds. -/
def inRange (x : Int) : Prop :=
  INT_MIN ≤ x ∧ x ≤ INT_MAX

instance (x : Int) : Decidable (inRange x) := by
  unfold inRange; infer_instance

/-- The `int` stored for an operation whose exact result is `x`: `x` reduced
modulo `2^32` into `[-2^31, 2^31)`. -/
def wrap (x : Int) : Int :=
  (x + 2147483648) % 4294967296 - 2147483648

namespace Machine

/-- The operator `+` on `int`. -/
def iadd (x y : Int) : Int := wrap (x + y)

/-- The operator `-` on `int`. -/
def isub (x y : Int) : Int := wrap (x - y)

/-- The operator `*` on `int`. -/
def imul (x y : Int) : Int := wrap (x * y)

/-- The unary operator `-` on `int`. -/
def ineg (x : Int) : Int := wrap (-x)

/-- The operator `/` on `int`: truncation toward zero; no result for a zero divisor
and for `INT_MIN / -1`, whose quotient is not an `int`. -/
def idiv (x y : Int) : Option Int :=
  if y = 0 ∨ (x = INT_MIN ∧ y = -1) then none else some (Int.tdiv x y)

/-- The initialisation `T x = sqrt(e)` at `T = int`: no result for `e < 0`, where
the library returns NaN and the conversion of NaN to `int` is undefined. -/
def isqrt (e : Int) : Option Int :=
  if e < 0 then none else some (sqrt e)

namespace Vector

/-- The method `innerProduct` of `Vector`, on the 32-bit `int`. -/
def innerProduct (v other : Promenu.Vector) : Except Exception Int :=
  if v.size ≠ other.size then
    .error (.invalid_argument "Both vectors must have the same size for inner product")
  else
    .ok ((List.range v.size).foldl
      (fun result i => iadd result (imul (v.data.getD i 0) (other.getElement i)))
      0)

end Vector

namespace Matrix

/-- The method `operator+` of `Matrix`, on the 32-bit `int`. -/
def add (m other : Promenu.Matrix) : Except Exception Promenu.Matrix :=
  if m.numRows ≠ other.numRows ∨ m.numCols ≠ other.numCols then
    .error (.invalid_argument "Matrix dimensions must match for addition")
  else
    .ok ((List.range m.numRows).foldl
      (fun result i => (List.range m.numCols).foldl
        (fun result j => result.setElement i j (iadd (m.getElement i j) (other.getElement i j)))
        result)
      (Promenu.Matrix.new m.numRows m.numCols))

/-- The method `operator-` of `Matrix`, on the 32-bit `int`. -/
def sub (m other : Promenu.Matrix) : Except Exception Promenu.Matrix :=
  if m.numRows ≠ other.numRows ∨ m.numCols ≠ other.numCols then
    .error (.invalid_argument "Matrix dimensions must match for subtraction")
  else
    .ok ((List.range m.numRows).foldl
      (fun result i => (List.range m.numCols).foldl
        (fun result j => result.setElement i j (isub (m.getElement i j) (other.getElement i j)))
        result)
      (Promenu.Matrix.new m.numRows m.numCols))

/-- The method `operator*(T scalar)`, on the 32-bit `int`. -/
def mulScalar (m : Promenu.Matrix) (scalar : Int) : Promenu.Matrix :=
  (List.range m.numRows).foldl
    (fun result i => (List.range m.numCols).foldl
      (fun result j => result.setElement i j (imul (m.getElement i j) scalar))
      result)
    (Promenu.Matrix.new m.numRows m.numCols)

/-- The method `operator*(const Matrix<T>&)`, on the 32-bit `int`. -/
def mul (m other : Promenu.Matrix) : Except Exception Promenu.Matrix :=
  if m.numCols ≠ other.numRows then
    .error (.invalid_argument
      "Number of columns in first matrix must match number of rows in second matrix for multiplication")
  else
    .ok ((List.range m.numRows).foldl
      (fun result i => (List.range other.numCols).foldl
        (fun result j =>
          let sum := (List.range m.numCols).foldl
            (fun sum k => iadd sum (imul (m.getElement i k) (other.getElement k j))) 0
          result.setElement i j sum)
        result)
      (Promenu.Matrix.new m.numRows other.numCols))

/-- The method `determinant`, on the 32-bit `int`. -/
def determinant (m : Promenu.Matrix) : Except Exception Int :=
  if m.numRows ≠ 2 ∨ m.numCols ≠ 2 then
    .error (.invalid_argument "Determinant calculation is only supported for 2x2 matrices")
  else
    .ok (isub (imul (m.getElement 0 0) (m.getElement 1 1))
      (imul (m.getElement 0 1) (m.getElement 1 0)))

/-- The method `inverse`, on the 32-bit `int`.  The four quotients are taken in the
order of the source; a quotient without a result leaves the call without a result. -/
def inverse (m : Promenu.Matrix) : Option (Except Exception Promenu.Matrix) :=
  if m.numRows ≠ 2 ∨ m.numCols ≠ 2 then
    some (.error (.invalid_argument "Matrix inversion is only supported for 2x2 matrices"))
  else
    match determinant m with
    | .error e => some (.error e)
    | .ok det =>
      if det = 0 then
        some (.error (.invalid_argument "Matrix is singular, cannot be inverted"))
      else do
        let result := Promenu.Matrix.new 2 2
        let q ← idiv (m.getElement 1 1) det
        let result := result.setElement 0 0 q
        let q ← idiv (ineg (m.getElement 0 1)) det
        let result := result.setElement 0 1 q
        let q ← idiv (ineg (m.getElement 1 0)) det
        let result := result.setElement 1 0 q
        let q ← idiv (m.getElement 0 0) det
        let result := result.setElement 1 1 q
        pure (.ok result)

/-- The method `eigenValues`, on the 32-bit `int`. -/
def eigenValues (m : Promenu.Matrix) : Option (Except Exception (List Int)) :=
  if m.numRows ≠ 2 ∨ m.numCols ≠ 2 then
    some (.error
      (.invalid_argument "Eigenvalues calculation is only supported for 2x2 matrices"))
  else do
    let a := m.getElement 0 0
    let b := m.getElement 0 1
    let c := m.getElement 1 0
    let d := m.getElement 1 1
    let discriminant ← isqrt (isub (imul (iadd a d) (iadd a d)) (imul 4 (isub (imul a d) (imul b c))))
    let lambda1 ← idiv (iadd (iadd a d) discriminant) 2
    let lambda2 ← idiv (isub (iadd a d) discriminant) 2
    pure (.ok [lambda1, lambda2])

end Matrix

end Machine

/-! ## Auxiliary facts about the vector loops -/

theorem Vector.getElement_of_size_le (v : Vector) (a : Nat) (h : v.size ≤ a) :
    v.getElement a = 0 := by
  simp only [Vector.getElement, Vector.size] at *
  simp [List.getD_eq_getElem?_getD, List.getElem?_eq_none h]

/-- The accumulation loop `result += t i` from zero is the finite sum. -/
theorem foldl_add_range (t : Nat → Int) (n : Nat) :
    (List.range n).foldl (fun result i => result + t i) 0 = ∑ i in Finset.range n, t i := by
  induction n with
  | zero => simp
  | succ n ih => simp [List.range_succ, List.foldl_append, ih, Finset.sum_range_succ]

theorem Matrix.length_setElement (m : Matrix) (r c : Nat) (v : Int) :
    (m.setElement r c v).data.length = m.data.length := by
  simp [Matrix.setElement]

theorem Matrix.row_setElement (m : Matrix) (r c a : Nat) (v : Int) :
    (m.setElement r c v).row a = if a = r ∧ a < m.data.length then (m.row a).set c v
      else m.row a := by
  simp only [Matrix.setElement, Matrix.row, List.getD_eq_getElem?_getD, List.getElem?_set]
  by_cases h : r = a
  · subst h
    by_cases h2 : r < m.data.length
    · simp [h2]
    · simp [h2, List.getElem?_eq_none (Nat.le_of_not_lt h2)]
  · have h3 : ¬ a = r := fun e => h e.symm
    simp [h, h3]

theorem Matrix.length_row_setElement (m : Matrix) (r c a : Nat) (v : Int) :
    ((m.setElement r c v).row a).length = (m.row a).length := by
  rw [Matrix.row_setElement]
  split <;> simp

theorem Matrix.getElement_eq (m : Matrix) (a b : Nat) :
    m.getElement a b = (m.row a).getD b 0 := rfl

theorem Matrix.entry_setElement (m : Matrix) (r c a b : Nat) (v : Int) :
    (m.setElement r c v).getElement a b =
      if (a = r ∧ b = c) ∧ a < m.data.length ∧ b < (m.row a).length then v
      else m.getElement a b := by
  rw [Matrix.getElement_eq, Matrix.row_setElement, Matrix.getElement_eq]
  by_cases h1 : a = r ∧ a < m.data.length
  · rw [if_pos h1]
    simp only [List.getD_eq_getElem?_getD, List.getElem?_set]
    obtain ⟨h1a, h1b⟩ := h1
    subst h1a
    by_cases h2 : c = b
    · subst h2
      by_cases h3 : c < (m.row a).length
      · simp [h1b, h3]
      · simp [h3, List.getElem?_eq_none (Nat.le_of_not_lt h3)]
    · have h4 : ¬ b = c := fun e => h2 e.symm
      simp [h2, h4]
  · rw [if_neg h1]
    have : ¬ ((a = r ∧ b = c) ∧ a < m.data.length ∧ b < (m.row a).length) :=
      fun h => h1 ⟨h.1.1, h.2.1⟩
    rw [if_neg this]

/-- A loop that stores `G a b` at every position `(a, b)` of a list of positions. -/
theorem Matrix.foldl_store_entries (G : Nat → Nat → Int) (L : List (Nat × Nat)) (m : Matrix) :
    (L.foldl (fun result x => result.setElement x.1 x.2 (G x.1 x.2)) m).data.length
        = m.data.length ∧
    (∀ a, ((L.foldl (fun result x => result.setElement x.1 x.2 (G x.1 x.2)) m).row a).length
        = (m.row a).length) ∧
    ∀ a b, (L.foldl (fun result x => result.setElement x.1 x.2 (G x.1 x.2)) m).getElement a b =
      if (a, b) ∈ L ∧ a < m.data.length ∧ b < (m.row a).length then G a b
      else m.getElement a b := by
  induction L generalizing m with
  | nil => simp
  | cons x xs ih =>
    obtain ⟨h1, h2, h3⟩ := ih (m.setElement x.1 x.2 (G x.1 x.2))
    refine ⟨by simpa [Matrix.length_setElement] using h1, ?_, ?_⟩
    · intro a
      simpa [Matrix.length_row_setElement] using h2 a
    · intro a b
      simp only [List.foldl_cons, h3, Matrix.length_setElement, Matrix.length_row_setElement,
        Matrix.entry_setElement, List.mem_cons]
      by_cases hx : (a, b) = x
      · subst hx
        by_cases hs : a < m.data.length ∧ b < (m.row a).length <;> simp [hs]
      · have hx2 : ¬ (a = x.1 ∧ b = x.2) := fun e => hx (Prod.ext e.1 e.2)
        simp [hx, hx2]

/-- Two nested loops visit the positions `φ i j` in row-major order of `(i, j)`. -/
theorem foldl_nested {α : Type} (step : α → Nat × Nat → α) (φ : Nat → Nat → Nat × Nat)
    (xs ys : List Nat) (m : α) :
    xs.foldl (fun result i => ys.foldl (fun result j => step result (φ i j)) result) m =
      (xs.flatMap fun i => ys.map (φ i)).foldl step m := by
  induction xs generalizing m with
  | nil => simp
  | cons x xs ih => simp [List.foldl_append, List.foldl_map, ih]

theorem mem_positions (m p a b : Nat) :
    (a, b) ∈ ((List.range m).flatMap fun i => (List.range p).map (fun j => (i, j)))
      ↔ a < m ∧ b < p := by
  simp [List.mem_flatMap, List.mem_map, List.mem_range]

theorem mem_positions_swap (m p a b : Nat) :
    (a, b) ∈ ((List.range m).flatMap fun i => (List.range p).map (fun j => (j, i)))
      ↔ b < m ∧ a < p := by
  simp only [List.mem_flatMap, List.mem_map, List.mem_range, Prod.mk.injEq]
  constructor
  · rintro ⟨i, hi, j, hj, rfl, rfl⟩
    exact ⟨hi, hj⟩
  · rintro ⟨hb, ha⟩
    exact ⟨b, hb, a, ha, rfl, rfl⟩

theorem Matrix.length_new (rows cols : Nat) : (Matrix.new rows cols).data.length = rows := by
  simp [Matrix.new]

theorem Matrix.row_new (rows cols a : Nat) :
    (Matrix.new rows cols).row a = if a < rows then List.replicate cols 0 else [] := by
  simp only [Matrix.new, Matrix.row, List.getD_eq_getElem?_getD]
  by_cases h : a < rows
  · simp [h, List.getElem?_replicate]
  · simp [h, List.getElem?_replicate]

theorem Matrix.getElement_new (rows cols a b : Nat) :
    (Matrix.new rows cols).getElement a b = 0 := by
  rw [Matrix.getElement_eq, Matrix.row_new]
  split
  · simp only [List.getD_eq_getElem?_getD, List.getElem?_replicate]
    split <;> rfl
  · rfl

/-- Two matrices with the same number of rows, the same row lengths and the same
element at every position are equal. -/
theorem Matrix.ext_of_entries (A B : Matrix) (hr : A.data.length = B.data.length)
    (hc : ∀ a, a < A.data.length → (A.row a).length = (B.row a).length)
    (h : ∀ a b, a < A.data.length → b < (A.row a).length → A.getElement a b = B.getElement a b) :
    A = B := by
  cases A with
  | mk xs =>
    cases B with
    | mk ys =>
      simp only [Matrix.row, Matrix.getElement, List.getD_eq_getElem?_getD] at hr hc h
      congr 1
      apply List.ext_getElem hr
      intro i h1 h2
      have hci := hc i h1
      simp only [List.getElem?_eq_getElem h1, List.getElem?_eq_getElem h2,
        Option.getD_some] at hci
      apply List.ext_getElem hci
      intro j h3 h4
      have := h i j h1 (by simpa [List.getElem?_eq_getElem h1] using h3)
      simpa [List.getElem?_eq_getElem h1, List.getElem?_eq_getElem h2,
        List.getElem?_eq_getElem h3, List.getElem?_eq_getElem h4] using this

theorem Matrix.numCols_eq (m : Matrix) :
    m.numCols = if m.data.length = 0 then 0 else (m.row 0).length := by
  cases m with
  | mk xs => cases xs <;> simp [Matrix.numCols, Matrix.row]

theorem Matrix.numCols_new (rows cols : Nat) :
    (Matrix.new rows cols).numCols = if rows = 0 then 0 else cols := by
  rw [Matrix.numCols_eq, Matrix.length_new, Matrix.row_new]
  by_cases h : rows = 0
  · simp [h]
  · simp [h, Nat.pos_of_ne_zero h]

/-- Closed form of the matrix product when the inner dimensions agree. -/
theorem Matrix.mul_spec (A B : Matrix) (h : A.numCols = B.numRows) :
    ∃ R, A.mul B = .ok R ∧ R.data.length = A.numRows ∧
      (∀ a, (R.row a).length = if a < A.numRows then B.numCols else 0) ∧
      ∀ i j, i < A.numRows → j < B.numCols →
        R.getElement i j = ∑ k in Finset.range A.numCols, A.getElement i k * B.getElement k j := by
  have key := foldl_nested
    (fun (r : Matrix) x => r.setElement x.1 x.2
      (∑ k in Finset.range A.numCols, A.getElement x.1 k * B.getElement k x.2))
    (fun i j => (i, j)) (List.range A.numRows) (List.range B.numCols)
    (Matrix.new A.numRows B.numCols)
  have hfold := Matrix.foldl_store_entries
    (fun a b => ∑ k in Finset.range A.numCols, A.getElement a k * B.getElement k b)
    ((List.range A.numRows).flatMap fun i => (List.range B.numCols).map (fun j => (i, j)))
    (Matrix.new A.numRows B.numCols)
  obtain ⟨h1, h2, h3⟩ := hfold
  have hmul : A.mul B = .ok
      (((List.range A.numRows).flatMap fun i => (List.range B.numCols).map (fun j => (i, j))).foldl
        (fun result x => result.setElement x.1 x.2
          (∑ k in Finset.range A.numCols, A.getElement x.1 k * B.getElement k x.2))
        (Matrix.new A.numRows B.numCols)) := by
    rw [Matrix.mul, if_neg (not_not.mpr h)]
    simp only [foldl_add_range]
    exact congrArg Except.ok key
  refine ⟨_, hmul, ?_, ?_, ?_⟩
  · rw [h1, Matrix.length_new]
  · intro a
    rw [h2 a, Matrix.row_new]
    split <;> simp
  · intro i j hi hj
    rw [h3 i j]
    refine if_pos ⟨(mem_positions _ _ i j).mpr ⟨hi, hj⟩, ?_, ?_⟩
    · rw [Matrix.length_new]; exact hi
    · rw [Matrix.row_new, if_pos hi, List.length_replicate]; exact hj

/-- Shape and contents of the transpose. -/
theorem Matrix.transpose_spec (A : Matrix) :
    A.transpose.data.length = A.numCols ∧
    (∀ a, (A.transpose.row a).length = if a < A.numCols then A.numRows else 0) ∧
    ∀ i j, i < A.numRows → j < A.numCols → A.transpose.getElement j i = A.getElement i j := by
  have key := foldl_nested
    (fun (r : Matrix) x => r.setElement x.1 x.2 (A.getElement x.2 x.1))
    (fun i j => (j, i)) (List.range A.numRows) (List.range A.numCols)
    (Matrix.new A.numCols A.numRows)
  have hfold := Matrix.foldl_store_entries (fun a b => A.getElement b a)
    ((List.range A.numRows).flatMap fun i => (List.range A.numCols).map (fun j => (j, i)))
    (Matrix.new A.numCols A.numRows)
  have ht : A.transpose = _ := key
  obtain ⟨h1, h2, h3⟩ := hfold
  rw [ht]
  refine ⟨?_, ?_, ?_⟩
  · rw [h1, Matrix.length_new]
  · intro a
    rw [h2 a, Matrix.row_new]
    split <;> simp
  · intro i j hi hj
    rw [h3 j i]
    refine if_pos ⟨(mem_positions_swap _ _ j i).mpr ⟨hi, hj⟩, ?_, ?_⟩
    · rw [Matrix.length_new]; exact hj
    · rw [Matrix.row_new, if_pos hj, List.length_replicate]; exact hi

theorem Matrix.Rect.length_row (A : Matrix) (h : A.Rect) (a : Nat) (ha : a < A.data.length) :
    (A.row a).length = A.numCols := by
  apply h
  simp only [Matrix.row, List.getD_eq_getElem?_getD, List.getElem?_eq_getElem ha,
    Option.getD_some]
  exact List.getElem_mem ha

theorem Matrix.HasShape.length_row_eq_cols (A : Matrix) (rows cols : Nat) (h : A.HasShape rows cols)
    (a : Nat) (ha : a < rows) : (A.row a).length = cols := by
  have ha2 : a < A.data.length := h.1 ▸ ha
  apply h.2
  simp only [Matrix.row, List.getD_eq_getElem?_getD, List.getElem?_eq_getElem ha2,
    Option.getD_some]
  exact List.getElem_mem ha2

theorem Matrix.HasShape.numCols_of_shape (A : Matrix) (rows cols : Nat) (h : A.HasShape rows cols) :
    A.numCols = if rows = 0 then 0 else cols := by
  rw [Matrix.numCols_eq, h.1]
  by_cases h0 : rows = 0
  · simp [h0]
  · simp [h0, Matrix.HasShape.length_row_eq_cols A rows cols h 0 (Nat.pos_of_ne_zero h0)]

/-- The constructor `Matrix(rows, cols)` yields storage of shape `rows × cols`. -/
theorem Matrix.hasShape_new (rows cols : Nat) : (Matrix.new rows cols).HasShape rows cols := by
  refine ⟨Matrix.length_new rows cols, ?_⟩
  intro r hr
  simp only [Matrix.new] at hr
  rw [(List.mem_replicate.mp hr).2, List.length_replicate]

/-- The method `setElement` keeps the shape of the storage. -/
theorem Matrix.HasShape.setElement_shape (A : Matrix) (rows cols : Nat)
    (h : A.HasShape rows cols) (r c : Nat) (v : Int) :
    (A.setElement r c v).HasShape rows cols := by
  refine ⟨(Matrix.length_setElement A r c v).trans h.1, ?_⟩
  intro x hx
  obtain ⟨a, ha, rfl⟩ := List.getElem_of_mem hx
  have hrow : (A.setElement r c v).row a = (A.setElement r c v).data[a] := by
    simp [Matrix.row, List.getD_eq_getElem?_getD, List.getElem?_eq_getElem ha]
  rw [← hrow, Matrix.length_row_setElement]
  rw [Matrix.length_setElement, h.1] at ha
  exact Matrix.HasShape.length_row_eq_cols A rows cols h a ha

/-- Storage of shape `rows × cols` is rectangular. -/
theorem Matrix.HasShape.rect (A : Matrix) (rows cols : Nat) (h : A.HasShape rows cols) :
    A.Rect := by
  intro r hr
  rw [h.2 r hr, Matrix.HasShape.numCols_of_shape A rows cols h]
  have hpos : rows ≠ 0 := by
    intro h0
    have hl := h.1
    rw [h0] at hl
    rw [List.length_eq_zero.mp hl] at hr
    exact absurd hr (List.not_mem_nil r)
  rw [if_neg hpos]

/-- Truncation toward zero: the quotient of the magnitudes, with the sign of the
exact quotient. -/
theorem tdiv_truncates (x y : Int) :
    Int.tdiv x y = Int.sign x * Int.sign y * ((x.natAbs / y.natAbs : Nat) : Int) := by
  obtain ⟨m, rfl | rfl⟩ := Int.eq_nat_or_neg x <;> obtain ⟨n, rfl | rfl⟩ := Int.eq_nat_or_neg y
  all_goals
    rcases Nat.eq_zero_or_pos m with rfl | hm <;> rcases Nat.eq_zero_or_pos n with rfl | hn
  all_goals
    simp [Int.tdiv_neg, Int.neg_tdiv, Int.sign_natCast_of_ne_zero, *, Nat.pos_iff_ne_zero.mp,
      Int.tdiv_eq_ediv]

/-- The inverse of a matrix stored as `[[a, b], [c, d]]` with non-zero determinant. -/
theorem Matrix.inverse_two_by_two (a b c d : Int) (h : a * d - b * c ≠ 0) :
    (Matrix.mk [[a, b], [c, d]]).inverse = .ok (Matrix.mk
      [[Int.tdiv d (a * d - b * c), Int.tdiv (-b) (a * d - b * c)],
       [Int.tdiv (-c) (a * d - b * c), Int.tdiv a (a * d - b * c)]]) := by
  have hdet : (Matrix.mk [[a, b], [c, d]]).determinant = .ok (a * d - b * c) := by
    simp [Matrix.determinant, Matrix.numRows, Matrix.numCols, Matrix.getElement]
  have hshape : ¬ ((Matrix.mk [[a, b], [c, d]]).numRows ≠ 2 ∨
      (Matrix.mk [[a, b], [c, d]]).numCols ≠ 2) := by
    simp [Matrix.numRows, Matrix.numCols]
  rw [Matrix.inverse, if_neg hshape, hdet]
  show (if a * d - b * c = 0 then _ else _) = _
  rw [if_neg h]
  simp [Matrix.new, Matrix.setElement, Matrix.getElement, List.replicate]

/-- The product of two matrices stored as `[[a, b], [c, d]]` and `[[p, q], [r, s]]`. -/
theorem Matrix.mul_two_by_two (a b c d p q r s : Int) :
    (Matrix.mk [[a, b], [c, d]]).mul (Matrix.mk [[p, q], [r, s]]) = .ok (Matrix.mk
      [[a * p + b * r, a * q + b * s], [c * p + d * r, c * q + d * s]]) := by
  have h2 : List.range 2 = [0, 1] := rfl
  simp [Matrix.mul, Matrix.numRows, Matrix.numCols, Matrix.new, Matrix.setElement,
    Matrix.getElement, List.replicate, h2]

/-! ## Auxiliary facts about the element-wise loops -/

theorem Matrix.hasShape_of_rows (A : Matrix) (rows cols : Nat) (h1 : A.data.length = rows)
    (h2 : ∀ a, a < rows → (A.row a).length = cols) : A.HasShape rows cols := by
  refine ⟨h1, ?_⟩
  intro x hx
  obtain ⟨a, ha, rfl⟩ := List.getElem_of_mem hx
  have hrow : A.row a = A.data[a] := by
    simp [Matrix.row, List.getD_eq_getElem?_getD, List.getElem?_eq_getElem ha]
  rw [← hrow]
  exact h2 a (h1 ▸ ha)

theorem Matrix.numRows_of_shape (A : Matrix) (rows cols : Nat) (h : A.HasShape rows cols) :
    A.numRows = rows := h.1

theorem Matrix.numCols_of_numRows_zero (A : Matrix) (h : A.numRows = 0) : A.numCols = 0 := by
  have h0 : A.data.length = 0 := h
  rw [Matrix.numCols_eq, if_pos h0]

theorem Matrix.Rect.hasShape (A : Matrix) (h : A.Rect) : A.HasShape A.numRows A.numCols :=
  ⟨rfl, h⟩

/-- The loop nest shared by `operator+`, `operator-` and `operator*(T)`: a fresh
`rows × cols` matrix in which position `(i, j)` receives `G i j`. -/
theorem Matrix.fill_spec (G : Nat → Nat → Int) (rows cols : Nat) :
    ((List.range rows).foldl
      (fun result i => (List.range cols).foldl
        (fun result j => result.setElement i j (G i j)) result)
      (Matrix.new rows cols)).HasShape rows cols ∧
    ∀ i j, i < rows → j < cols →
      ((List.range rows).foldl
        (fun result i => (List.range cols).foldl
          (fun result j => result.setElement i j (G i j)) result)
        (Matrix.new rows cols)).getElement i j = G i j := by
  have key := foldl_nested
    (fun (r : Matrix) x => r.setElement x.1 x.2 (G x.1 x.2))
    (fun i j => (i, j)) (List.range rows) (List.range cols) (Matrix.new rows cols)
  have hfold := Matrix.foldl_store_entries G
    ((List.range rows).flatMap fun i => (List.range cols).map (fun j => (i, j)))
    (Matrix.new rows cols)
  obtain ⟨h1, h2, h3⟩ := hfold
  have heq : (List.range rows).foldl
      (fun result i => (List.range cols).foldl
        (fun result j => result.setElement i j (G i j)) result)
      (Matrix.new rows cols) =
      ((List.range rows).flatMap fun i => (List.range cols).map (fun j => (i, j))).foldl
        (fun result x => result.setElement x.1 x.2 (G x.1 x.2)) (Matrix.new rows cols) := key
  rw [heq]
  constructor
  · apply Matrix.hasShape_of_rows
    · rw [h1, Matrix.length_new]
    · intro a ha
      rw [h2 a, Matrix.row_new, if_pos ha, List.length_replicate]
  · intro i j hi hj
    rw [h3 i j]
    refine if_pos ⟨(mem_positions _ _ i j).mpr ⟨hi, hj⟩, ?_, ?_⟩
    · rw [Matrix.length_new]; exact hi
    · rw [Matrix.row_new, if_pos hi, List.length_replicate]; exact hj

/-- A matrix filled into a fresh `Matrix(A.numRows(), A.numCols())` reports the row
and column counts of `A`. -/
theorem Matrix.counts_of_shape_like (A R : Matrix) (h : R.HasShape A.numRows A.numCols) :
    R.numRows = A.numRows ∧ R.numCols = A.numCols := by
  refine ⟨h.1, ?_⟩
  rw [Matrix.HasShape.numCols_of_shape R _ _ h]
  by_cases h0 : A.numRows = 0
  · rw [if_pos h0, Matrix.numCols_of_numRows_zero A h0]
  · rw [if_neg h0]

/-- Closed form of `operator+` on matrices with equal row and column counts. -/
theorem Matrix.add_entries (A B : Matrix) (hr : A.numRows = B.numRows)
    (hc : A.numCols = B.numCols) :
    ∃ R, A.add B = .ok R ∧ R.HasShape A.numRows A.numCols ∧
      ∀ i j, i < A.numRows → j < A.numCols →
        R.getElement i j = A.getElement i j + B.getElement i j := by
  have hg : ¬ (A.numRows ≠ B.numRows ∨ A.numCols ≠ B.numCols) := by
    rintro (h | h)
    · exact h hr
    · exact h hc
  obtain ⟨h1, h2⟩ := Matrix.fill_spec (fun i j => A.getElement i j + B.getElement i j)
    A.numRows A.numCols
  exact ⟨_, by rw [Matrix.add, if_neg hg], h1, h2⟩

/-- Closed form of `operator-` on matrices with equal row and column counts. -/
theorem Matrix.sub_entries (A B : Matrix) (hr : A.numRows = B.numRows)
    (hc : A.numCols = B.numCols) :
    ∃ R, A.sub B = .ok R ∧ R.HasShape A.numRows A.numCols ∧
      ∀ i j, i < A.numRows → j < A.numCols →
        R.getElement i j = A.getElement i j - B.getElement i j := by
  have hg : ¬ (A.numRows ≠ B.numRows ∨ A.numCols ≠ B.numCols) := by
    rintro (h | h)
    · exact h hr
    · exact h hc
  obtain ⟨h1, h2⟩ := Matrix.fill_spec (fun i j => A.getElement i j - B.getElement i j)
    A.numRows A.numCols
  exact ⟨_, by rw [Matrix.sub, if_neg hg], h1, h2⟩

/-- Closed form of the scalar product. -/
theorem Matrix.mulScalar_entries (A : Matrix) (scalar : Int) :
    (A.mulScalar scalar).HasShape A.numRows A.numCols ∧
      ∀ i j, i < A.numRows → j < A.numCols →
        (A.mulScalar scalar).getElement i j = A.getElement i j * scalar :=
  Matrix.fill_spec (fun i j => A.getElement i j * scalar) A.numRows A.numCols

/-- A matrix returned by `operator+` has the storage of `Matrix(numRows(), numCols())`. -/
theorem Matrix.add_ok_shape (A B R : Matrix) (h : A.add B = .ok R) :
    R.HasShape A.numRows A.numCols := by
  by_cases hs : A.numRows ≠ B.numRows ∨ A.numCols ≠ B.numCols
  · rw [Matrix.add, if_pos hs] at h
    cases h
  · obtain ⟨R2, hR2, hshape, -⟩ := Matrix.add_entries A B
      (by by_contra e; exact hs (Or.inl e)) (by by_contra e; exact hs (Or.inr e))
    rw [hR2] at h
    cases h
    exact hshape

/-- A matrix returned by `operator-` has the storage of `Matrix(numRows(), numCols())`. -/
theorem Matrix.sub_ok_shape (A B R : Matrix) (h : A.sub B = .ok R) :
    R.HasShape A.numRows A.numCols := by
  by_cases hs : A.numRows ≠ B.numRows ∨ A.numCols ≠ B.numCols
  · rw [Matrix.sub, if_pos hs] at h
    cases h
  · obtain ⟨R2, hR2, hshape, -⟩ := Matrix.sub_entries A B
      (by by_contra e; exact hs (Or.inl e)) (by by_contra e; exact hs (Or.inr e))
    rw [hR2] at h
    cases h
    exact hshape

/-- A matrix returned by the matrix product has the storage of
`Matrix(numRows(), other.numCols())`. -/
theorem Matrix.mul_ok_shape (A B R : Matrix) (h : A.mul B = .ok R) :
    R.HasShape A.numRows B.numCols := by
  by_cases hs : A.numCols ≠ B.numRows
  · rw [Matrix.mul, if_pos hs] at h
    cases h
  · obtain ⟨R2, hR2, hlen, hrow, -⟩ := Matrix.mul_spec A B (not_not.mp hs)
    rw [hR2] at h
    cases h
    apply Matrix.hasShape_of_rows _ _ _ hlen
    intro a ha
    rw [hrow a, if_pos ha]

/-- The transpose has the storage of `Matrix(numCols(), numRows())`. -/
theorem Matrix.transpose_shape (A : Matrix) : A.transpose.HasShape A.numCols A.numRows := by
  obtain ⟨t1, t2, -⟩ := Matrix.transpose_spec A
  apply Matrix.hasShape_of_rows _ _ _ t1
  intro a ha
  rw [t2 a, if_pos ha]

/-- A matrix returned by `inverse` has the storage of `Matrix(2, 2)`. -/
theorem Matrix.inverse_ok_shape (A R : Matrix) (h : A.inverse = .ok R) : R.HasShape 2 2 := by
  by_cases hs : A.numRows ≠ 2 ∨ A.numCols ≠ 2
  · rw [Matrix.inverse, if_pos hs] at h
    cases h
  · rw [Matrix.inverse, if_neg hs, Matrix.determinant, if_neg hs] at h
    change (if _ = 0 then _ else _) = _ at h
    split at h
    · cases h
    · cases h
      exact Matrix.HasShape.setElement_shape _ 2 2
        (Matrix.HasShape.setElement_shape _ 2 2
          (Matrix.HasShape.setElement_shape _ 2 2
            (Matrix.HasShape.setElement_shape _ 2 2 (Matrix.hasShape_new 2 2) _ _ _) _ _ _)
          _ _ _) _ _ _

/-! ## Auxiliary facts about the truncated square root -/

theorem sqrtAux_le (k n : Nat) : sqrtAux k n ≤ k := by
  induction k with
  | zero => simp [sqrtAux]
  | succ k ih =>
    simp only [sqrtAux]
    split
    · exact Nat.le_refl _
    · exact Nat.le_succ_of_le ih

theorem sqrtAux_sq_le (k n : Nat) : sqrtAux k n * sqrtAux k n ≤ n := by
  induction k with
  | zero => simp [sqrtAux]
  | succ k ih =>
    simp only [sqrtAux]
    split
    · assumption
    · exact ih

theorem sqrtAux_greatest (k n r : Nat) (hr : r ≤ k) (h : r * r ≤ n) : r ≤ sqrtAux k n := by
  induction k with
  | zero => simpa [sqrtAux] using hr
  | succ k ih =>
    simp only [sqrtAux]
    split
    · exact hr
    · rename_i hk
      rcases Nat.lt_or_ge r (k + 1) with hlt | hge
      · exact ih (Nat.le_of_lt_succ hlt)
      · have : r = k + 1 := Nat.le_antisymm hr hge
        subst this
        exact absurd h hk

theorem sqrtAux_lt_succ_sq (n : Nat) : n < (sqrtAux n n + 1) * (sqrtAux n n + 1) := by
  by_contra hcon
  have hle : (sqrtAux n n + 1) * (sqrtAux n n + 1) ≤ n := Nat.le_of_not_lt hcon
  have hbound : sqrtAux n n + 1 ≤ n := by nlinarith
  have := sqrtAux_greatest n n (sqrtAux n n + 1) hbound hle
  omega

/-- The embedded `sqrt` is the integer square root of the library. -/
theorem sqrt_eq_natSqrt (e : Int) : sqrt e = (Nat.sqrt e.toNat : Nat) := by
  unfold sqrt
  congr 1
  exact Nat.eq_sqrt.mpr ⟨sqrtAux_sq_le _ _, sqrtAux_lt_succ_sq _⟩

/-- On a non-negative argument `sqrt e` is the `n ≥ 0` with `n*n ≤ e < (n+1)*(n+1)`. -/
theorem sqrt_bounds (e : Int) (h : 0 ≤ e) :
    0 ≤ sqrt e ∧ sqrt e * sqrt e ≤ e ∧ e < (sqrt e + 1) * (sqrt e + 1) := by
  obtain ⟨n, rfl⟩ := Int.eq_ofNat_of_zero_le h
  simp only [sqrt, Int.toNat_ofNat]
  refine ⟨Int.ofNat_zero_le _, ?_, ?_⟩
  · exact_mod_cast sqrtAux_sq_le n n
  · exact_mod_cast sqrtAux_lt_succ_sq n

/-- There is only one `n ≥ 0` with `n*n ≤ e < (n+1)*(n+1)`. -/
theorem sqrt_unique (e n : Int) (h0 : 0 ≤ n) (h1 : n * n ≤ e) (h2 : e < (n + 1) * (n + 1)) :
    sqrt e = n := by
  have he : 0 ≤ e := le_trans (mul_nonneg h0 h0) h1
  obtain ⟨s0, s1, s2⟩ := sqrt_bounds e he
  by_contra hne
  rcases lt_or_gt_of_ne hne with hlt | hgt
  · have : sqrt e + 1 ≤ n := hlt
    nlinarith
  · have : n + 1 ≤ sqrt e := hgt
    nlinarith

theorem sqrt_mul_self (s : Int) (h : 0 ≤ s) : sqrt (s * s) = s :=
  sqrt_unique (s * s) s h (le_refl _) (by nlinarith)

/-! ## Auxiliary facts about the norm loop -/

/-- The accumulation loop `sum += t j` from any start value. -/
theorem foldl_add_range_from (t : Nat → Int) (n : Nat) (start : Int) :
    (List.range n).foldl (fun sum j => sum + t j) start
      = start + ∑ j in Finset.range n, t j := by
  induction n with
  | zero => simp
  | succ n ih =>
    rw [List.range_succ, List.foldl_append, ih, Finset.sum_range_succ]
    simp [add_assoc]

/-- Summing over the indices of a list is summing over its elements. -/
theorem sum_range_getD {α : Type} (l : List α) (d : α) (F : α → Int) :
    ∑ i in Finset.range l.length, F (l.getD i d) = (l.map F).sum := by
  induction l with
  | nil => simp
  | cons x xs ih =>
    rw [List.length_cons, Finset.sum_range_succ', List.map_cons, List.sum_cons]
    simp only [List.getD_cons_succ, List.getD_cons_zero]
    rw [ih, add_comm]

/-- The two loops of `norm` add up `data[i][j] * data[i][j]` over the index ranges. -/
theorem Matrix.norm_eq_sqrt_sum (A : Matrix) :
    A.norm = sqrt (∑ i in Finset.range A.numRows, ∑ j in Finset.range A.numCols,
      A.getElement i j * A.getElement i j) := by
  unfold Matrix.norm
  congr 1
  simp only [foldl_add_range_from]
  rw [zero_add]

/-- On rectangular storage the index ranges of `norm` cover every element. -/
theorem Matrix.sum_eq_sumSquares (A : Matrix) (h : A.Rect) :
    (∑ i in Finset.range A.numRows, ∑ j in Finset.range A.numCols,
      A.getElement i j * A.getElement i j) = A.sumSquares := by
  have hrow : ∀ i ∈ Finset.range A.numRows,
      (∑ j in Finset.range A.numCols, A.getElement i j * A.getElement i j)
        = ((A.data.getD i []).map fun x => x * x).sum := by
    intro i hi
    have hlen : (A.row i).length = A.numCols :=
      Matrix.Rect.length_row A h i (Finset.mem_range.mp hi)
    rw [← hlen]
    exact sum_range_getD (A.row i) 0 (fun x => x * x)
  rw [Finset.sum_congr rfl hrow]
  exact sum_range_getD A.data [] (fun r => (r.map fun x => x * x).sum)

theorem Matrix.sumSquares_nonneg (A : Matrix) : 0 ≤ A.sumSquares := by
  unfold Matrix.sumSquares
  apply List.sum_nonneg
  intro x hx
  obtain ⟨r, -, rfl⟩ := List.mem_map.mp hx
  apply List.sum_nonneg
  intro y hy
  obtain ⟨z, -, rfl⟩ := List.mem_map.mp hy
  exact mul_self_nonneg z

/-! ## Auxiliary facts about 2×2 matrices -/

/-- The result of `eigenValues` on a matrix stored as `[[a, b], [c, d]]`. -/
theorem Matrix.eigenValues_two_by_two (a b c d : Int) :
    (Matrix.mk [[a, b], [c, d]]).eigenValues = .ok
      [Int.tdiv (a + d + sqrt ((a + d) * (a + d) - 4 * (a * d - b * c))) 2,
       Int.tdiv (a + d - sqrt ((a + d) * (a + d) - 4 * (a * d - b * c))) 2] := by
  simp [Matrix.eigenValues, Matrix.numRows, Matrix.numCols, Matrix.getElement]

/-- Halving an even `int` with `/ 2` is exact. -/
theorem two_mul_tdiv_two (x : Int) (h : Even x) : 2 * Int.tdiv x 2 = x := by
  have hmod : Int.tmod x 2 = 0 := Int.tmod_eq_zero_of_dvd (even_iff_two_dvd.mp h)
  have := Int.tdiv_add_tmod x 2
  rw [hmod, add_zero] at this
  exact this

/-- When the discriminant is the square `s * s`, trace plus or minus `s` is even. -/
theorem even_trace_add_root (t det s : Int) (h : t ^ 2 - 4 * det = s * s) :
    Even (t + s) ∧ Even (t - s) := by
  have hprod : Even ((t + s) * (t - s)) := ⟨2 * det, by linear_combination h⟩
  have hiff : Even (t + s) ↔ Even (t - s) := by
    simp only [Int.even_add, Int.even_sub]
  rcases Int.even_mul.mp hprod with h1 | h1
  · exact ⟨h1, hiff.mp h1⟩
  · exact ⟨hiff.mpr h1, h1⟩

/-- With determinant `1` the truncating divisions of `inverse` change nothing. -/
theorem Matrix.inverse_of_det_one (a b c d : Int) (h : a * d - b * c = 1) :
    (Matrix.mk [[a, b], [c, d]]).inverse = .ok (Matrix.mk [[d, -b], [-c, a]]) := by
  rw [Matrix.inverse_two_by_two a b c d (by rw [h]; decide), h]
  simp only [Int.tdiv_one]

/-- With determinant `-1` the truncating divisions of `inverse` negate every entry. -/
theorem Matrix.inverse_of_det_neg_one (a b c d : Int) (h : a * d - b * c = -1) :
    (Matrix.mk [[a, b], [c, d]]).inverse = .ok (Matrix.mk [[-d, b], [c, -a]]) := by
  rw [Matrix.inverse_two_by_two a b c d (by rw [h]; decide), h]
  simp only [Int.tdiv_neg, Int.tdiv_one, neg_neg]

/-! ## Auxiliary facts about the 32-bit arithmetic -/

theorem wrap_inRange (x : Int) : inRange (wrap x) := by
  unfold inRange wrap INT_MIN INT_MAX
  omega

theorem wrap_eq_self_iff (x : Int) : wrap x = x ↔ inRange x := by
  unfold inRange wrap INT_MIN INT_MAX
  omega

theorem wrap_of_inRange (x : Int) (h : inRange x) : wrap x = x :=
  (wrap_eq_self_iff x).mpr h

theorem wrap_modEq (x : Int) : wrap x ≡ x [ZMOD 4294967296] := by
  unfold Int.ModEq wrap
  omega

theorem wrap_congr (x y : Int) (h : x ≡ y [ZMOD 4294967296]) : wrap x = wrap y := by
  unfold Int.ModEq at h
  unfold wrap
  omega

theorem wrap_eq_zero_iff (x : Int) : wrap x = 0 ↔ (4294967296 : Int) ∣ x := by
  unfold wrap
  omega

/-- One step of an accumulation `sum += x * y` on `int`. -/
theorem Machine.iadd_wrap_imul (acc x y : Int) :
    Machine.iadd (wrap acc) (Machine.imul x y) = wrap (acc + x * y) := by
  unfold Machine.iadd Machine.imul
  exact wrap_congr _ _ ((wrap_modEq acc).add (wrap_modEq (x * y)))

/-- The accumulation loop `sum += t i * u i` on `int`, from zero: the exact sum,
reduced once. -/
theorem Machine.foldl_iadd_imul (t u : Nat → Int) (n : Nat) :
    (List.range n).foldl (fun result i => Machine.iadd result (Machine.imul (t i) (u i))) 0
      = wrap (∑ i in Finset.range n, t i * u i) := by
  induction n with
  | zero =>
    have h0 : wrap 0 = 0 := by decide
    simp [h0]
  | succ n ih =>
    rw [List.range_succ, List.foldl_append, ih, Finset.sum_range_succ]
    exact Machine.iadd_wrap_imul _ _ _

theorem Machine.isub_imul_imul (a b c d : Int) :
    Machine.isub (Machine.imul a d) (Machine.imul b c) = wrap (a * d - b * c) := by
  unfold Machine.isub Machine.imul
  exact wrap_congr _ _ ((wrap_modEq (a * d)).sub (wrap_modEq (b * c)))

/-- The discriminant expression of `eigenValues` on `int`. -/
theorem Machine.discriminant_eq (a b c d : Int) :
    Machine.isub (Machine.imul (Machine.iadd a d) (Machine.iadd a d))
        (Machine.imul 4 (Machine.isub (Machine.imul a d) (Machine.imul b c)))
      = wrap ((a + d) * (a + d) - 4 * (a * d - b * c)) := by
  rw [Machine.isub_imul_imul a b c d]
  unfold Machine.isub Machine.imul Machine.iadd
  apply wrap_congr
  have h1 : wrap (a + d) ≡ a + d [ZMOD 4294967296] := wrap_modEq _
  have h2 : wrap (a * d - b * c) ≡ a * d - b * c [ZMOD 4294967296] := wrap_modEq _
  have h3 : wrap (wrap (a + d) * wrap (a + d)) ≡ (a + d) * (a + d) [ZMOD 4294967296] :=
    (wrap_modEq _).trans (h1.mul h1)
  have h4 : wrap (4 * wrap (a * d - b * c)) ≡ 4 * (a * d - b * c) [ZMOD 4294967296] :=
    (wrap_modEq _).trans (Int.ModEq.mul (Int.ModEq.refl 4) h2)
  exact h3.sub h4

theorem Machine.idiv_of_ne (x y : Int) (hy : y ≠ 0) (h : ¬ (x = INT_MIN ∧ y = -1)) :
    Machine.idiv x y = some (Int.tdiv x y) := by
  unfold Machine.idiv
  rw [if_neg]
  rintro (h0 | h1)
  · exact hy h0
  · exact h h1

theorem Machine.idiv_two (x : Int) : Machine.idiv x 2 = some (Int.tdiv x 2) :=
  Machine.idiv_of_ne x 2 (by decide) (fun h => absurd h.2 (by decide))

/-- Closed form of `operator+` on the 32-bit `int`. -/
theorem Machine.Matrix.add_wrapped (A B : Matrix) (hr : A.numRows = B.numRows)
    (hc : A.numCols = B.numCols) :
    ∃ R, Machine.Matrix.add A B = .ok R ∧ R.HasShape A.numRows A.numCols ∧
      ∀ i j, i < A.numRows → j < A.numCols →
        R.getElement i j = wrap (A.getElement i j + B.getElement i j) := by
  have hg : ¬ (A.numRows ≠ B.numRows ∨ A.numCols ≠ B.numCols) := by
    rintro (h | h)
    · exact h hr
    · exact h hc
  obtain ⟨h1, h2⟩ := Matrix.fill_spec
    (fun i j => Machine.iadd (A.getElement i j) (B.getElement i j)) A.numRows A.numCols
  exact ⟨_, by rw [Machine.Matrix.add, if_neg hg], h1, h2⟩

/-- Closed form of `operator-` on the 32-bit `int`. -/
theorem Machine.Matrix.sub_wrapped (A B : Matrix) (hr : A.numRows = B.numRows)
    (hc : A.numCols = B.numCols) :
    ∃ R, Machine.Matrix.sub A B = .ok R ∧ R.HasShape A.numRows A.numCols ∧
      ∀ i j, i < A.numRows → j < A.numCols →
        R.getElement i j = wrap (A.getElement i j - B.getElement i j) := by
  have hg : ¬ (A.numRows ≠ B.numRows ∨ A.numCols ≠ B.numCols) := by
    rintro (h | h)
    · exact h hr
    · exact h hc
  obtain ⟨h1, h2⟩ := Matrix.fill_spec
    (fun i j => Machine.isub (A.getElement i j) (B.getElement i j)) A.numRows A.numCols
  exact ⟨_, by rw [Machine.Matrix.sub, if_neg hg], h1, h2⟩

/-- Closed form of the scalar product on the 32-bit `int`. -/
theorem Machine.Matrix.mulScalar_wrapped (A : Matrix) (scalar : Int) :
    (Machine.Matrix.mulScalar A scalar).HasShape A.numRows A.numCols ∧
      ∀ i j, i < A.numRows → j < A.numCols →
        (Machine.Matrix.mulScalar A scalar).getElement i j
          = wrap (A.getElement i j * scalar) :=
  Matrix.fill_spec (fun i j => Machine.imul (A.getElement i j) scalar) A.numRows A.numCols

/-- Closed form of the matrix product on the 32-bit `int`. -/
theorem Machine.Matrix.mul_wrapped (A B : Matrix) (h : A.numCols = B.numRows) :
    ∃ R, Machine.Matrix.mul A B = .ok R ∧ R.HasShape A.numRows B.numCols ∧
      ∀ i j, i < A.numRows → j < B.numCols →
        R.getElement i j
          = wrap (∑ k in Finset.range A.numCols, A.getElement i k * B.getElement k j) := by
  obtain ⟨h1, h2⟩ := Matrix.fill_spec
    (fun i j => (List.range A.numCols).foldl
      (fun sum k => Machine.iadd sum (Machine.imul (A.getElement i k) (B.getElement k j))) 0)
    A.numRows B.numCols
  refine ⟨_, by rw [Machine.Matrix.mul, if_neg (not_not.mpr h)], h1, ?_⟩
  intro i j hi hj
  rw [h2 i j hi hj]
  exact Machine.foldl_iadd_imul (fun k => A.getElement i k) (fun k => B.getElement k j) A.numCols

/-- The result of `determinant` on the 32-bit `int`, for a 2×2 matrix. -/
theorem Machine.Matrix.determinant_wrapped (A : Matrix)
    (hs : ¬ (A.numRows ≠ 2 ∨ A.numCols ≠ 2)) :
    Machine.Matrix.determinant A = .ok
      (wrap (A.getElement 0 0 * A.getElement 1 1 - A.getElement 0 1 * A.getElement 1 0)) := by
  rw [Machine.Matrix.determinant, if_neg hs, Machine.isub_imul_imul]

/-- The result of `inverse` on the 32-bit `int` when the determinant is not zero
and no quotient is `INT_MIN / -1`. -/
theorem Machine.Matrix.inverse_of_quotients (A : Matrix)
    (hs : ¬ (A.numRows ≠ 2 ∨ A.numCols ≠ 2)) (det : Int)
    (hdet : det = wrap
      (A.getElement 0 0 * A.getElement 1 1 - A.getElement 0 1 * A.getElement 1 0))
    (h0 : det ≠ 0)
    (h1 : ¬ (A.getElement 1 1 = INT_MIN ∧ det = -1))
    (h2 : ¬ (Machine.ineg (A.getElement 0 1) = INT_MIN ∧ det = -1))
    (h3 : ¬ (Machine.ineg (A.getElement 1 0) = INT_MIN ∧ det = -1))
    (h4 : ¬ (A.getElement 0 0 = INT_MIN ∧ det = -1)) :
    Machine.Matrix.inverse A = some (.ok
      (((((Matrix.new 2 2).setElement 0 0 (Int.tdiv (A.getElement 1 1) det)).setElement 0 1
        (Int.tdiv (Machine.ineg (A.getElement 0 1)) det)).setElement 1 0
        (Int.tdiv (Machine.ineg (A.getElement 1 0)) det)).setElement 1 1
        (Int.tdiv (A.getElement 0 0) det))) := by
  rw [Machine.Matrix.inverse, if_neg hs, Machine.Matrix.determinant_wrapped A hs, ← hdet]
  simp only [if_neg h0, Machine.idiv_of_ne _ _ h0 h1, Machine.idiv_of_ne _ _ h0 h2,
    Machine.idiv_of_ne _ _ h0 h3, Machine.idiv_of_ne _ _ h0 h4]
  rfl

/-- The call `inverse` on the 32-bit `int` throws the singular-matrix exception when
the determinant it computed is zero. -/
theorem Machine.Matrix.inverse_of_det_zero (A : Matrix)
    (hs : ¬ (A.numRows ≠ 2 ∨ A.numCols ≠ 2))
    (h0 : wrap
      (A.getElement 0 0 * A.getElement 1 1 - A.getElement 0 1 * A.getElement 1 0) = 0) :
    Machine.Matrix.inverse A =
      some (.error (.invalid_argument "Matrix is singular, cannot be inverted")) := by
  rw [Machine.Matrix.inverse, if_neg hs, Machine.Matrix.determinant_wrapped A hs, h0]
  rfl

/-- A 2×2 matrix for `numRows` and `numCols`. -/
theorem Matrix.two_by_two_shape (a b c d : Int) :
    ¬ ((Matrix.mk [[a, b], [c, d]]).numRows ≠ 2 ∨ (Matrix.mk [[a, b], [c, d]]).numCols ≠ 2) := by
  simp [Matrix.numRows, Matrix.numCols]

/-- The inverse on the 32-bit `int` of a matrix stored as `[[a, b], [c, d]]`. -/
theorem Machine.Matrix.inverse_two_by_two_wrapped (a b c d det : Int)
    (hdet : det = wrap (a * d - b * c)) (h0 : det ≠ 0)
    (h1 : ¬ (d = INT_MIN ∧ det = -1))
    (h2 : ¬ (wrap (-b) = INT_MIN ∧ det = -1))
    (h3 : ¬ (wrap (-c) = INT_MIN ∧ det = -1))
    (h4 : ¬ (a = INT_MIN ∧ det = -1)) :
    Machine.Matrix.inverse (Matrix.mk [[a, b], [c, d]]) = some (.ok (Matrix.mk
      [[Int.tdiv d det, Int.tdiv (wrap (-b)) det],
       [Int.tdiv (wrap (-c)) det, Int.tdiv a det]])) := by
  rw [Machine.Matrix.inverse_of_quotients (Matrix.mk [[a, b], [c, d]])
    (Matrix.two_by_two_shape a b c d) det hdet h0 h1 h2 h3 h4]
  simp [Matrix.new, Matrix.setElement, Matrix.getElement, List.replicate, Machine.ineg]

theorem Machine.iadd_iadd_zero (x y z w : Int) :
    Machine.iadd (Machine.iadd 0 (Machine.imul x y)) (Machine.imul z w)
      = wrap (x * y + z * w) := by
  unfold Machine.iadd Machine.imul
  apply wrap_congr
  have h1 : wrap (0 + wrap (x * y)) ≡ x * y [ZMOD 4294967296] := by
    rw [zero_add]
    exact (wrap_modEq _).trans (wrap_modEq _)
  exact h1.add (wrap_modEq _)

/-- The product on the 32-bit `int` of two matrices stored as `[[a, b], [c, d]]`
and `[[p, q], [r, s]]`. -/
theorem Machine.Matrix.mul_two_by_two_wrapped (a b c d p q r s : Int) :
    Machine.Matrix.mul (Matrix.mk [[a, b], [c, d]]) (Matrix.mk [[p, q], [r, s]])
      = .ok (Matrix.mk
        [[wrap (a * p + b * r), wrap (a * q + b * s)],
         [wrap (c * p + d * r), wrap (c * q + d * s)]]) := by
  have h2 : List.range 2 = [0, 1] := rfl
  simp [Machine.Matrix.mul, Matrix.numRows, Matrix.numCols, Matrix.new, Matrix.setElement,
    Matrix.getElement, List.replicate, h2, Machine.iadd_iadd_zero]

/-- The result of `eigenValues` on the 32-bit `int` for a matrix stored as
`[[a, b], [c, d]]` whose computed discriminant is not negative. -/
theorem Machine.Matrix.eigenValues_two_by_two_wrapped (a b c d : Int)
    (h : 0 ≤ wrap ((a + d) * (a + d) - 4 * (a * d - b * c))) :
    Machine.Matrix.eigenValues (Matrix.mk [[a, b], [c, d]]) = some (.ok
      [Int.tdiv (wrap (a + d + sqrt (wrap ((a + d) * (a + d) - 4 * (a * d - b * c))))) 2,
       Int.tdiv (wrap (a + d - sqrt (wrap ((a + d) * (a + d) - 4 * (a * d - b * c))))) 2]) := by
  have hadd : ∀ s : Int, Machine.iadd (Machine.iadd a d) s = wrap (a + d + s) := by
    intro s
    unfold Machine.iadd wrap
    omega
  have hsub : ∀ s : Int, Machine.isub (Machine.iadd a d) s = wrap (a + d - s) := by
    intro s
    unfold Machine.isub Machine.iadd wrap
    omega
  rw [Machine.Matrix.eigenValues, if_neg (Matrix.two_by_two_shape a b c d)]
  simp only [Matrix.getElement, List.getD_cons_zero, List.getD_cons_succ,
    Machine.discriminant_eq, Machine.isqrt, if_neg (not_lt.mpr h), hadd, hsub,
    Machine.idiv_two]
  rfl

/-- With a non-zero determinant `inverse` on the 32-bit `int` throws nothing: it
returns a matrix or has no result. -/
theorem Machine.Matrix.inverse_not_error (A : Matrix)
    (hs : ¬ (A.numRows ≠ 2 ∨ A.numCols ≠ 2))
    (h0 : wrap
      (A.getElement 0 0 * A.getElement 1 1 - A.getElement 0 1 * A.getElement 1 0) ≠ 0)
    (e : Exception) : Machine.Matrix.inverse A ≠ some (.error e) := by
  rw [Machine.Matrix.inverse, if_neg hs, Machine.Matrix.determinant_wrapped A hs]
  simp only [if_neg h0]
  intro h
  cases h1 : Machine.idiv (A.getElement 1 1) (wrap
      (A.getElement 0 0 * A.getElement 1 1 - A.getElement 0 1 * A.getElement 1 0)) <;>
    cases h2 : Machine.idiv (Machine.ineg (A.getElement 0 1)) (wrap
      (A.getElement 0 0 * A.getElement 1 1 - A.getElement 0 1 * A.getElement 1 0)) <;>
    cases h3 : Machine.idiv (Machine.ineg (A.getElement 1 0)) (wrap
      (A.getElement 0 0 * A.getElement 1 1 - A.getElement 0 1 * A.getElement 1 0)) <;>
    cases h4 : Machine.idiv (A.getElement 0 0) (wrap
      (A.getElement 0 0 * A.getElement 1 1 - A.getElement 0 1 * A.getElement 1 0)) <;>
    simp [h1, h2, h3, h4] at h

theorem wrap_eq_of_modEq (x y v : Int) (h : x ≡ y [ZMOD 4294967296]) (hy : wrap y = v) :
    wrap x = v := by
  rw [wrap_congr x y h, hy]

theorem wrap_neg_of_wrap_eq_neg_one (x : Int) (h : wrap x = -1) : wrap (-x) = 1 := by
  unfold wrap at *
  omega

theorem wrap_zero : wrap 0 = 0 := by decide

/-- With the determinant computed in `int` equal to `1`, `A * inverse(A)` on the
32-bit `int` is the identity. -/
theorem Machine.Matrix.mul_inverse_of_det_one (a b c d : Int) (h : wrap (a * d - b * c) = 1) :
    ∃ inv, Machine.Matrix.inverse (Matrix.mk [[a, b], [c, d]]) = some (.ok inv) ∧
      Machine.Matrix.mul (Matrix.mk [[a, b], [c, d]]) inv = .ok (Matrix.mk [[1, 0], [0, 1]]) := by
  have hinv := Machine.Matrix.inverse_two_by_two_wrapped a b c d 1 h.symm (by decide)
    (fun e => absurd e.2 (by decide)) (fun e => absurd e.2 (by decide))
    (fun e => absurd e.2 (by decide)) (fun e => absurd e.2 (by decide))
  simp only [Int.tdiv_one] at hinv
  refine ⟨_, hinv, ?_⟩
  rw [Machine.Matrix.mul_two_by_two_wrapped]
  have e1 : wrap (a * d + b * wrap (-c)) = 1 := by
    apply wrap_eq_of_modEq _ (a * d - b * c) 1 _ h
    have := Int.ModEq.add_left (a * d) (Int.ModEq.mul_left b (wrap_modEq (-c)))
    rwa [show a * d + b * -c = a * d - b * c by ring] at this
  have e2 : wrap (a * wrap (-b) + b * a) = 0 := by
    apply wrap_eq_of_modEq _ 0 0 _ wrap_zero
    have := Int.ModEq.add_right (b * a) (Int.ModEq.mul_left a (wrap_modEq (-b)))
    rwa [show a * -b + b * a = 0 by ring] at this
  have e3 : wrap (c * d + d * wrap (-c)) = 0 := by
    apply wrap_eq_of_modEq _ 0 0 _ wrap_zero
    have := Int.ModEq.add_left (c * d) (Int.ModEq.mul_left d (wrap_modEq (-c)))
    rwa [show c * d + d * -c = 0 by ring] at this
  have e4 : wrap (c * wrap (-b) + d * a) = 1 := by
    apply wrap_eq_of_modEq _ (a * d - b * c) 1 _ h
    have := Int.ModEq.add_right (d * a) (Int.ModEq.mul_left c (wrap_modEq (-b)))
    rwa [show c * -b + d * a = a * d - b * c by ring] at this
  rw [e1, e2, e3, e4]

/-- With the determinant computed in `int` equal to `-1` and no quotient
`INT_MIN / -1`, `A * inverse(A)` on the 32-bit `int` is the identity. -/
theorem Machine.Matrix.mul_inverse_of_det_neg_one (a b c d : Int)
    (h : wrap (a * d - b * c) = -1) (h1 : d ≠ INT_MIN) (h2 : wrap (-b) ≠ INT_MIN)
    (h3 : wrap (-c) ≠ INT_MIN) (h4 : a ≠ INT_MIN) :
    ∃ inv, Machine.Matrix.inverse (Matrix.mk [[a, b], [c, d]]) = some (.ok inv) ∧
      Machine.Matrix.mul (Matrix.mk [[a, b], [c, d]]) inv = .ok (Matrix.mk [[1, 0], [0, 1]]) := by
  have hinv := Machine.Matrix.inverse_two_by_two_wrapped a b c d (-1) h.symm (by decide)
    (fun e => h1 e.1) (fun e => h2 e.1) (fun e => h3 e.1) (fun e => h4 e.1)
  simp only [Int.tdiv_neg, Int.tdiv_one] at hinv
  refine ⟨_, hinv, ?_⟩
  rw [Machine.Matrix.mul_two_by_two_wrapped]
  have hneg := wrap_neg_of_wrap_eq_neg_one _ h
  have e1 : wrap (a * -d + b * -wrap (-c)) = 1 := by
    apply wrap_eq_of_modEq _ (-(a * d - b * c)) 1 _ hneg
    have := Int.ModEq.add_left (a * -d) (Int.ModEq.mul_left b (wrap_modEq (-c)).neg)
    rwa [show a * -d + b * - -c = -(a * d - b * c) by ring] at this
  have e2 : wrap (a * -wrap (-b) + b * -a) = 0 := by
    apply wrap_eq_of_modEq _ 0 0 _ wrap_zero
    have := Int.ModEq.add_right (b * -a) (Int.ModEq.mul_left a (wrap_modEq (-b)).neg)
    rwa [show a * - -b + b * -a = 0 by ring] at this
  have e3 : wrap (c * -d + d * -wrap (-c)) = 0 := by
    apply wrap_eq_of_modEq _ 0 0 _ wrap_zero
    have := Int.ModEq.add_left (c * -d) (Int.ModEq.mul_left d (wrap_modEq (-c)).neg)
    rwa [show c * -d + d * - -c = 0 by ring] at this
  have e4 : wrap (c * -wrap (-b) + d * -a) = 1 := by
    apply wrap_eq_of_modEq _ (-(a * d - b * c)) 1 _ hneg
    have := Int.ModEq.add_right (d * -a) (Int.ModEq.mul_left c (wrap_modEq (-b)).neg)
    rwa [show c * - -b + d * -a = -(a * d - b * c) by ring] at this
  rw [e1, e2, e3, e4]

/-! ## The 32-bit methods agree with the exact ones where nothing overflows -/

theorem Matrix.eq_of_shape_entries (R S : Matrix) (rows cols : Nat)
    (hR : R.HasShape rows cols) (hS : S.HasShape rows cols)
    (h : ∀ i j, i < rows → j < cols → R.getElement i j = S.getElement i j) : R = S := by
  apply Matrix.ext_of_entries
  · rw [hR.1, hS.1]
  · intro a ha
    rw [hR.1] at ha
    rw [Matrix.HasShape.length_row_eq_cols _ _ _ hR a ha,
      Matrix.HasShape.length_row_eq_cols _ _ _ hS a ha]
  · intro a b ha hb
    rw [hR.1] at ha
    rw [Matrix.HasShape.length_row_eq_cols _ _ _ hR a ha] at hb
    exact h a b ha hb

theorem Machine.Vector.innerProduct_eq_exact (a b : Vector)
    (h : inRange (∑ i in Finset.range a.size, a.getElement i * b.getElement i)) :
    Machine.Vector.innerProduct a b = a.innerProduct b := by
  by_cases hs : a.size ≠ b.size
  · rw [Machine.Vector.innerProduct, Promenu.Vector.innerProduct, if_pos hs, if_pos hs]
  · rw [Machine.Vector.innerProduct, Promenu.Vector.innerProduct, if_neg hs, if_neg hs]
    congr 1
    rw [Machine.foldl_iadd_imul (fun i => a.data.getD i 0) (fun i => b.getElement i) a.size,
      foldl_add_range (fun i => a.data.getD i 0 * b.getElement i) a.size]
    exact wrap_of_inRange _ h

theorem Machine.Matrix.add_eq_exact (A B : Matrix)
    (h : ∀ i j, i < A.numRows → j < A.numCols →
      inRange (A.getElement i j + B.getElement i j)) :
    Machine.Matrix.add A B = A.add B := by
  by_cases hs : A.numRows ≠ B.numRows ∨ A.numCols ≠ B.numCols
  · rw [Machine.Matrix.add, Promenu.Matrix.add, if_pos hs, if_pos hs]
  · have hr : A.numRows = B.numRows := by
      by_contra e
      exact hs (Or.inl e)
    have hc : A.numCols = B.numCols := by
      by_contra e
      exact hs (Or.inr e)
    obtain ⟨R, hR, hshape, hget⟩ := Machine.Matrix.add_wrapped A B hr hc
    obtain ⟨S, hS, hshapeS, hgetS⟩ := Matrix.add_entries A B hr hc
    rw [hR, hS]
    congr 1
    apply Matrix.eq_of_shape_entries R S _ _ hshape hshapeS
    intro i j hi hj
    rw [hget i j hi hj, hgetS i j hi hj, wrap_of_inRange _ (h i j hi hj)]

theorem Machine.Matrix.sub_eq_exact (A B : Matrix)
    (h : ∀ i j, i < A.numRows → j < A.numCols →
      inRange (A.getElement i j - B.getElement i j)) :
    Machine.Matrix.sub A B = A.sub B := by
  by_cases hs : A.numRows ≠ B.numRows ∨ A.numCols ≠ B.numCols
  · rw [Machine.Matrix.sub, Promenu.Matrix.sub, if_pos hs, if_pos hs]
  · have hr : A.numRows = B.numRows := by
      by_contra e
      exact hs (Or.inl e)
    have hc : A.numCols = B.numCols := by
      by_contra e
      exact hs (Or.inr e)
    obtain ⟨R, hR, hshape, hget⟩ := Machine.Matrix.sub_wrapped A B hr hc
    obtain ⟨S, hS, hshapeS, hgetS⟩ := Matrix.sub_entries A B hr hc
    rw [hR, hS]
    congr 1
    apply Matrix.eq_of_shape_entries R S _ _ hshape hshapeS
    intro i j hi hj
    rw [hget i j hi hj, hgetS i j hi hj, wrap_of_inRange _ (h i j hi hj)]

theorem Machine.Matrix.mulScalar_eq_exact (A : Matrix) (scalar : Int)
    (h : ∀ i j, i < A.numRows → j < A.numCols → inRange (A.getElement i j * scalar)) :
    Machine.Matrix.mulScalar A scalar = A.mulScalar scalar := by
  obtain ⟨hshape, hget⟩ := Machine.Matrix.mulScalar_wrapped A scalar
  obtain ⟨hshapeS, hgetS⟩ := Matrix.mulScalar_entries A scalar
  apply Matrix.eq_of_shape_entries _ _ _ _ hshape hshapeS
  intro i j hi hj
  rw [hget i j hi hj, hgetS i j hi hj, wrap_of_inRange _ (h i j hi hj)]

theorem Machine.Matrix.mul_eq_exact (A B : Matrix)
    (h : ∀ i j, i < A.numRows → j < B.numCols →
      inRange (∑ k in Finset.range A.numCols, A.getElement i k * B.getElement k j)) :
    Machine.Matrix.mul A B = A.mul B := by
  by_cases hs : A.numCols ≠ B.numRows
  · rw [Machine.Matrix.mul, Promenu.Matrix.mul, if_pos hs, if_pos hs]
  · obtain ⟨R, hR, hshape, hget⟩ := Machine.Matrix.mul_wrapped A B (not_not.mp hs)
    obtain ⟨S, hS, hshapeS⟩ : ∃ S, A.mul B = .ok S ∧ S.HasShape A.numRows B.numCols := by
      obtain ⟨S, hS, -⟩ := Matrix.mul_spec A B (not_not.mp hs)
      exact ⟨S, hS, Matrix.mul_ok_shape A B S hS⟩
    obtain ⟨S2, hS2, -, -, hgetS⟩ := Matrix.mul_spec A B (not_not.mp hs)
    rw [hS] at hS2
    cases hS2
    rw [hR, hS]
    congr 1
    apply Matrix.eq_of_shape_entries R S _ _ hshape hshapeS
    intro i j hi hj
    rw [hget i j hi hj, hgetS i j hi hj, wrap_of_inRange _ (h i j hi hj)]

theorem Machine.Matrix.determinant_eq_exact (A : Matrix)
    (h : inRange
      (A.getElement 0 0 * A.getElement 1 1 - A.getElement 0 1 * A.getElement 1 0)) :
    Machine.Matrix.determinant A = A.determinant := by
  by_cases hs : A.numRows ≠ 2 ∨ A.numCols ≠ 2
  · rw [Machine.Matrix.determinant, Promenu.Matrix.determinant, if_pos hs, if_pos hs]
  · rw [Machine.Matrix.determinant_wrapped A hs, Promenu.Matrix.determinant, if_neg hs,
      wrap_of_inRange _ h]

theorem Machine.Matrix.inverse_eq_exact (a b c d : Int) (hr : inRange (a * d - b * c))
    (hb : inRange (-b)) (hc : inRange (-c))
    (hq : ¬ (a * d - b * c = -1 ∧
      (d = INT_MIN ∨ -b = INT_MIN ∨ -c = INT_MIN ∨ a = INT_MIN))) :
    Machine.Matrix.inverse (Matrix.mk [[a, b], [c, d]])
      = some ((Matrix.mk [[a, b], [c, d]]).inverse) := by
  have hw := wrap_of_inRange _ hr
  by_cases h0 : a * d - b * c = 0
  · have hz : wrap ((Matrix.mk [[a, b], [c, d]]).getElement 0 0 *
        (Matrix.mk [[a, b], [c, d]]).getElement 1 1 -
        (Matrix.mk [[a, b], [c, d]]).getElement 0 1 *
        (Matrix.mk [[a, b], [c, d]]).getElement 1 0) = 0 := by
      simp only [Matrix.getElement, List.getD_cons_zero, List.getD_cons_succ]
      rw [hw, h0]
    rw [Machine.Matrix.inverse_of_det_zero _ (Matrix.two_by_two_shape a b c d) hz]
    have hdet : (Matrix.mk [[a, b], [c, d]]).determinant = .ok (a * d - b * c) := by
      simp [Promenu.Matrix.determinant, Matrix.numRows, Matrix.numCols, Matrix.getElement]
    rw [Promenu.Matrix.inverse, if_neg (Matrix.two_by_two_shape a b c d), hdet]
    show _ = some (if a * d - b * c = 0 then _ else _)
    rw [if_pos h0]
  · rw [Matrix.inverse_two_by_two a b c d h0,
      Machine.Matrix.inverse_two_by_two_wrapped a b c d (a * d - b * c) hw.symm h0
        (fun e => hq ⟨e.2, Or.inl e.1⟩)
        (fun e => hq ⟨e.2, Or.inr (Or.inl ((wrap_of_inRange _ hb) ▸ e.1))⟩)
        (fun e => hq ⟨e.2, Or.inr (Or.inr (Or.inl ((wrap_of_inRange _ hc) ▸ e.1)))⟩)
        (fun e => hq ⟨e.2, Or.inr (Or.inr (Or.inr e.1))⟩),
      wrap_of_inRange _ hb, wrap_of_inRange _ hc]

theorem Machine.Matrix.eigenValues_eq_exact (a b c d : Int)
    (hr : inRange ((a + d) * (a + d) - 4 * (a * d - b * c)))
    (h0 : 0 ≤ (a + d) * (a + d) - 4 * (a * d - b * c))
    (h1 : inRange (a + d + sqrt ((a + d) * (a + d) - 4 * (a * d - b * c))))
    (h2 : inRange (a + d - sqrt ((a + d) * (a + d) - 4 * (a * d - b * c)))) :
    Machine.Matrix.eigenValues (Matrix.mk [[a, b], [c, d]])
      = some ((Matrix.mk [[a, b], [c, d]]).eigenValues) := by
  have hw := wrap_of_inRange _ hr
  rw [Matrix.eigenValues_two_by_two,
    Machine.Matrix.eigenValues_two_by_two_wrapped a b c d (by rw [hw]; exact h0), hw,
    wrap_of_inRange _ h1, wrap_of_inRange _ h2]

/-- A determinant other than `1` and `-1` can also give the identity on the 32-bit
`int`: `[[180000, 25407], [3, 143166]]` has `a*d - b*c = 3 * (2^33 + 1)`, computed
determinant `3`, an exact inverse, and diagonal products `2^33 + 1`, which is `1` in
`int`. -/
theorem Machine.Matrix.mul_inverse_identity_det_three :
    Machine.Matrix.determinant (Matrix.mk [[180000, 25407], [3, 143166]]) = .ok 3 ∧
    Machine.Matrix.inverse (Matrix.mk [[180000, 25407], [3, 143166]]) =
      some (.ok (Matrix.mk [[47722, -8469], [-1, 60000]])) ∧
    Machine.Matrix.mul (Matrix.mk [[180000, 25407], [3, 143166]])
      (Matrix.mk [[47722, -8469], [-1, 60000]]) = .ok (Matrix.mk [[1, 0], [0, 1]]) := by
  decide

/-- The double transpose of a matrix without columns has no rows. -/
theorem Matrix.transpose_transpose_of_no_cols (A : Matrix) (h : A.numCols = 0) :
    A.transpose.transpose.numRows = 0 := by
  obtain ⟨t1, t2, -⟩ := Matrix.transpose_spec A
  obtain ⟨u1, -, -⟩ := Matrix.transpose_spec A.transpose
  have hlen : A.transpose.data.length = 0 := by rw [t1, h]
  have hc : A.transpose.numCols = 0 := by
    rw [Matrix.numCols_eq, if_pos hlen]
  exact u1.trans hc

/-! ## Vector claims -/

/-- C1: each of `a + b`, `a - b` and `a.innerProduct(b)` throws its dimension-mismatch
exception exactly when `a.size() != b.size()`; with different sizes no value is
returned, and with equal sizes every one of the three returns a value. -/
theorem vector_ops_fail_iff_size_mismatch (a b : Vector) :
    (a.add b = .error (.invalid_argument "Vector dimensions must match for addition")
        ↔ a.size ≠ b.size) ∧
    (a.sub b = .error (.invalid_argument "Vector dimensions must match for subtraction")
        ↔ a.size ≠ b.size) ∧
    (a.innerProduct b =
        .error (.invalid_argument "Both vectors must have the same size for inner product")
        ↔ a.size ≠ b.size) ∧
    (a.size ≠ b.size →
      (∀ r, a.add b ≠ .ok r) ∧ (∀ r, a.sub b ≠ .ok r) ∧ (∀ x, a.innerProduct b ≠ .ok x)) ∧
    (a.size = b.size →
      (∃ r, a.add b = .ok r) ∧ (∃ r, a.sub b = .ok r) ∧ (∃ x, a.innerProduct b = .ok x)) := by
  by_cases h : a.size = b.size
  · have hn : ¬ a.size ≠ b.size := not_not.mpr h
    simp only [Vector.add, Vector.sub, Vector.innerProduct, if_neg hn]
    simp [h]
  · have hn : a.size ≠ b.size := h
    simp only [Vector.add, Vector.sub, Vector.innerProduct, if_pos hn]
    simp [h]

/-- C1, at the vectors `[1, 2]` and `[1]` (sizes differ) and `[1, 2]`, `[3, 4]` (sizes equal). -/
theorem vector_ops_fail_iff_size_mismatch_witness :
    (Vector.mk [1, 2]).size ≠ (Vector.mk [1]).size ∧
    (Vector.mk [1, 2]).add (Vector.mk [1]) =
      .error (.invalid_argument "Vector dimensions must match for addition") ∧
    (Vector.mk [1, 2]).size = (Vector.mk [3, 4]).size ∧
    (∃ r, (Vector.mk [1, 2]).add (Vector.mk [3, 4]) = .ok r) :=
  ⟨by decide,
   (vector_ops_fail_iff_size_mismatch (Vector.mk [1, 2]) (Vector.mk [1])).1.mpr (by decide),
   by decide,
   ((vector_ops_fail_iff_size_mismatch (Vector.mk [1, 2]) (Vector.mk [3, 4])).2.2.2.2
      (by decide)).1⟩

/-- C6 as stated fails: `Matrix(0, 1) * Matrix(1, 1)` throws (a matrix without rows
reports `numCols() == 0`), and `Matrix(1, 0) * Matrix(0, 1)` returns a matrix that
reports `numCols() == 0`, not `1`. -/
theorem matrix_mul_shape_counterexample :
    (Matrix.new 0 1).mul (Matrix.new 1 1) = .error (.invalid_argument
      "Number of columns in first matrix must match number of rows in second matrix for multiplication") ∧
    (¬ ∃ R, (Matrix.new 0 1).mul (Matrix.new 1 1) = .ok R ∧ R.numRows = 0 ∧ R.numCols = 1) ∧
    (Matrix.new 1 0).mul (Matrix.new 0 1) = .ok (Matrix.mk [[]]) ∧
    (¬ ∃ R, (Matrix.new 1 0).mul (Matrix.new 0 1) = .ok R ∧ R.numRows = 1 ∧ R.numCols = 1) := by
  have h1 : (Matrix.new 0 1).mul (Matrix.new 1 1) = .error (.invalid_argument
      "Number of columns in first matrix must match number of rows in second matrix for multiplication") := by
    decide
  have h2 : (Matrix.new 1 0).mul (Matrix.new 0 1) = .ok (Matrix.mk [[]]) := by decide
  refine ⟨h1, ?_, h2, ?_⟩
  · rintro ⟨R, hR, -⟩
    rw [h1] at hR
    cases hR
  · rintro ⟨R, hR, -, hc⟩
    rw [h2] at hR
    cases hR
    revert hc
    decide

/-- C6, amended: for `A` with the storage of `Matrix(m, n)` and `B` with the storage
of `Matrix(n, p)`, `A * B` returns a matrix with `numRows() == m` and
`numCols() == p` exactly when `m >= 1` and `n >= 1`, or `n == 0` and `p == 0`. -/
theorem matrix_mul_shape (m n p : Nat) (A B : Matrix)
    (hA : A.HasShape m n) (hB : B.HasShape n p) :
    (∃ R, A.mul B = .ok R ∧ R.numRows = m ∧ R.numCols = p)
      ↔ (0 < m ∧ 0 < n) ∨ (n = 0 ∧ p = 0) := by
  have hAc := Matrix.HasShape.numCols_of_shape A m n hA
  have hBc := Matrix.HasShape.numCols_of_shape B n p hB
  have hAr : A.numRows = m := hA.1
  have hBr : B.numRows = n := hB.1
  by_cases hdim : A.numCols = B.numRows
  · obtain ⟨R, hR, hlen, hrow, -⟩ := Matrix.mul_spec A B hdim
    have hRc : R.numCols = if m = 0 then 0 else if n = 0 then 0 else p := by
      rw [Matrix.numCols_eq, hlen, hAr, hrow 0, hAr, hBc]
      by_cases h0 : m = 0
      · simp [h0]
      · simp [h0, Nat.pos_of_ne_zero h0]
    have hiff : (∃ R2, A.mul B = .ok R2 ∧ R2.numRows = m ∧ R2.numCols = p) ↔ R.numCols = p := by
      constructor
      · rintro ⟨R2, hR2, -, hc⟩
        rw [hR] at hR2
        cases hR2
        exact hc
      · intro hc
        exact ⟨R, hR, hlen.trans hAr, hc⟩
    rw [hiff, hRc]
    rw [hAc, hBr] at hdim
    by_cases h0 : m = 0
    · have hn0 : n = 0 := by simpa [h0] using hdim.symm
      simp [h0, hn0, eq_comm]
    · by_cases hn0 : n = 0
      · simp [h0, hn0, eq_comm]
      · simp [h0, hn0, Nat.pos_of_ne_zero h0, Nat.pos_of_ne_zero hn0]
  · have hne : A.numCols ≠ B.numRows := hdim
    have herr : ∀ R, A.mul B ≠ .ok R := by
      intro R
      simp [Matrix.mul, if_pos hne]
    rw [hAc, hBr] at hdim
    have hm0 : m = 0 := by
      by_contra hm
      exact hdim (by simp [hm])
    have hnpos : n ≠ 0 := by
      intro hn
      exact hdim (by simp [hm0, hn])
    constructor
    · rintro ⟨R, hR, -⟩
      exact absurd hR (herr R)
    · rintro (⟨hm, -⟩ | ⟨hn, -⟩)
      · omega
      · exact absurd hn hnpos

/-- C6, amended, at `m = 2`, `n = 1`, `p = 3`. -/
theorem matrix_mul_shape_witness :
    (Matrix.mk [[1], [2]]).HasShape 2 1 ∧ (Matrix.mk [[3, 4, 5]]).HasShape 1 3 ∧
    ∃ R, (Matrix.mk [[1], [2]]).mul (Matrix.mk [[3, 4, 5]]) = .ok R ∧
      R.numRows = 2 ∧ R.numCols = 3 :=
  ⟨by decide, by decide,
   (matrix_mul_shape 2 1 3 (Matrix.mk [[1], [2]]) (Matrix.mk [[3, 4, 5]])
      (by decide) (by decide)).mpr (Or.inl ⟨by decide, by decide⟩)⟩

/-- C7 as stated fails: the matrix `Matrix(1, 0)` (one row, no columns) is
transposed to a matrix without rows, and transposing that gives a matrix without
rows again, not the one-row matrix. -/
theorem transpose_transpose_counterexample :
    (Matrix.new 1 0).transpose.transpose ≠ Matrix.new 1 0 ∧
    (Matrix.new 1 0).transpose.transpose.numRows = 0 ∧ (Matrix.new 1 0).numRows = 1 := by
  decide

/-- C7, amended: for a rectangular matrix `A`, `transpose(transpose(A))` equals `A`
exactly when `A` has no rows or has at least one column. -/
theorem transpose_transpose (A : Matrix) (hA : A.Rect) :
    A.transpose.transpose = A ↔ (A.numRows = 0 ∨ 0 < A.numCols) := by
  obtain ⟨t1, t2, -⟩ := Matrix.transpose_spec A
  obtain ⟨u1, u2, u3⟩ := Matrix.transpose_spec A.transpose
  have htr : A.transpose.numRows = A.numCols := t1
  have htc : A.transpose.numCols = if A.numCols = 0 then 0 else A.numRows := by
    rw [Matrix.numCols_eq, t1, t2 0]
    by_cases h0 : A.numCols = 0
    · simp [h0]
    · simp [h0, Nat.pos_of_ne_zero h0]
  constructor
  · intro h
    by_contra hne
    have hn0 : A.numCols = 0 := by omega
    have hm0 : A.numRows ≠ 0 := fun e => hne (Or.inl e)
    have hlen : A.transpose.transpose.data.length = 0 := by rw [u1, htc, if_pos hn0]
    rw [h] at hlen
    exact hm0 hlen
  · intro h
    have hc : A.transpose.numCols = A.numRows := by
      rw [htc]
      rcases h with h | h
      · by_cases h0 : A.numCols = 0
        · rw [if_pos h0, h]
        · rw [if_neg h0]
      · rw [if_neg (by omega)]
    obtain ⟨-, -, t3⟩ := Matrix.transpose_spec A
    apply Matrix.ext_of_entries
    · rw [u1, hc]; rfl
    · intro a ha
      rw [u1, hc] at ha
      rw [u2 a, hc, if_pos ha, htr, Matrix.Rect.length_row A hA a ha]
    · intro a b ha hb
      rw [u1, hc] at ha
      rw [u2 a, hc, if_pos ha, htr] at hb
      rw [u3 b a (htr ▸ hb) (hc ▸ ha), t3 a b ha hb]

/-- C7, amended, at `A = [[1, 2, 3], [4, 5, 6]]`. -/
theorem transpose_transpose_witness :
    (Matrix.mk [[1, 2, 3], [4, 5, 6]]).Rect ∧
    (Matrix.mk [[1, 2, 3], [4, 5, 6]]).transpose.transpose = Matrix.mk [[1, 2, 3], [4, 5, 6]] :=
  ⟨by decide,
   (transpose_transpose (Matrix.mk [[1, 2, 3], [4, 5, 6]]) (by decide)).mpr
     (Or.inr (by decide))⟩

/-- C15 as stated fails: the transpose of `Matrix(1, 0)` (one row, no columns) has
no rows, so it reports `numCols() == 0` while `A.numRows()` is `1`. -/
theorem transpose_shape_counterexample :
    (Matrix.new 1 0).numRows = 1 ∧ (Matrix.new 1 0).numCols = 0 ∧
    (Matrix.new 1 0).transpose = Matrix.mk [] ∧
    (Matrix.new 1 0).transpose.numRows = 0 ∧
    (Matrix.new 1 0).transpose.numCols ≠ (Matrix.new 1 0).numRows := by
  decide

/-- C15, amended: `A.transpose()` has no `throw`; the returned matrix has
`A.numCols()` rows, reports `A.numRows()` columns when `A.numCols() >= 1` and `0`
columns when `A.numCols() == 0`, is rectangular, and its element `(j, i)` is
`A[i][j]` for every `i < A.numRows()` and `j < A.numCols()`. -/
theorem transpose_shape_and_entries (A : Matrix) :
    A.transpose.numRows = A.numCols ∧
    A.transpose.numCols = (if A.numCols = 0 then 0 else A.numRows) ∧
    A.transpose.HasShape A.numCols A.numRows ∧
    ∀ i j, i < A.numRows → j < A.numCols → A.transpose.getElement j i = A.getElement i j := by
  obtain ⟨t1, t2, t3⟩ := Matrix.transpose_spec A
  have hshape : A.transpose.HasShape A.numCols A.numRows := by
    apply Matrix.hasShape_of_rows _ _ _ t1
    intro a ha
    rw [t2 a, if_pos ha]
  exact ⟨t1, Matrix.HasShape.numCols_of_shape _ _ _ hshape, hshape, t3⟩

/-- C15, amended, at `A = [[1, 2, 3], [4, 5, 6]]`, position `(1, 2)`. -/
theorem transpose_shape_and_entries_witness :
    (1 : Nat) < (Matrix.mk [[1, 2, 3], [4, 5, 6]]).numRows ∧
    (2 : Nat) < (Matrix.mk [[1, 2, 3], [4, 5, 6]]).numCols ∧
    (Matrix.mk [[1, 2, 3], [4, 5, 6]]).transpose.getElement 2 1 = 6 :=
  ⟨by decide, by decide,
   ((transpose_shape_and_entries (Matrix.mk [[1, 2, 3], [4, 5, 6]])).2.2.2 1 2
      (by decide) (by decide)).trans (by decide)⟩

/-- C17 as stated fails: `Matrix(0, 1)` has no rows and reports `numCols() == 0`,
not `1`. -/
theorem constructor_counts_counterexample :
    (Matrix.new 0 1).numRows = 0 ∧ (Matrix.new 0 1).numCols = 0 ∧
    (Matrix.new 0 1).numCols ≠ 1 := by
  decide

/-- C17, amended: the matrix built by `Matrix(rows, cols)` reports
`numRows() == rows`; it reports `numCols() == cols` when `rows >= 1` and
`numCols() == 0` when `rows == 0`, so `numCols() == cols` holds exactly when
`rows >= 1` or `cols == 0`. -/
theorem constructor_counts (rows cols : Nat) :
    (Matrix.new rows cols).numRows = rows ∧
    (Matrix.new rows cols).numCols = (if rows = 0 then 0 else cols) ∧
    ((Matrix.new rows cols).numCols = cols ↔ (0 < rows ∨ cols = 0)) := by
  have hc := Matrix.numCols_new rows cols
  refine ⟨Matrix.length_new rows cols, hc, ?_⟩
  rw [hc]
  by_cases h0 : rows = 0
  · simp [h0, eq_comm]
  · simp [h0, Nat.pos_of_ne_zero h0]

/-- C18: rectangularity is kept by every way of producing a matrix: the matrix
built by `Matrix(rows, cols)`, a rectangular matrix after `setElement` at an in-range
position, and every matrix returned by `+`, `-`, the scalar product, the matrix
product, `transpose` and `inverse` has all its rows of length `numCols()`. -/
theorem rectangular_invariant :
    (∀ rows cols : Nat, (Matrix.new rows cols).Rect) ∧
    (∀ (A : Matrix) (row col : Nat) (value : Int),
      A.Rect → row < A.numRows → col < A.numCols → (A.setElement row col value).Rect) ∧
    (∀ A B R : Matrix, A.add B = .ok R → R.Rect) ∧
    (∀ A B R : Matrix, A.sub B = .ok R → R.Rect) ∧
    (∀ (A : Matrix) (scalar : Int), (A.mulScalar scalar).Rect) ∧
    (∀ A B R : Matrix, A.mul B = .ok R → R.Rect) ∧
    (∀ A : Matrix, A.transpose.Rect) ∧
    (∀ A R : Matrix, A.inverse = .ok R → R.Rect) := by
  refine ⟨?_, ?_, ?_, ?_, ?_, ?_, ?_, ?_⟩
  · intro rows cols
    exact Matrix.HasShape.rect _ rows cols (Matrix.hasShape_new rows cols)
  · intro A row col value hA _ _
    exact Matrix.HasShape.rect _ _ _
      (Matrix.HasShape.setElement_shape A _ _ (Matrix.Rect.hasShape A hA) row col value)
  · intro A B R h
    exact Matrix.HasShape.rect _ _ _ (Matrix.add_ok_shape A B R h)
  · intro A B R h
    exact Matrix.HasShape.rect _ _ _ (Matrix.sub_ok_shape A B R h)
  · intro A scalar
    exact Matrix.HasShape.rect _ _ _ (Matrix.mulScalar_entries A scalar).1
  · intro A B R h
    exact Matrix.HasShape.rect _ _ _ (Matrix.mul_ok_shape A B R h)
  · intro A
    exact Matrix.HasShape.rect _ _ _ (Matrix.transpose_shape A)
  · intro A R h
    exact Matrix.HasShape.rect _ _ _ (Matrix.inverse_ok_shape A R h)

/-- C18, at `setElement(0, 1, 7)` on `[[1, 2], [3, 4]]` and at the product of
`[[1, 2], [3, 4]]` with `[[5], [6]]`. -/
theorem rectangular_invariant_witness :
    (Matrix.mk [[1, 2], [3, 4]]).Rect ∧
    ((Matrix.mk [[1, 2], [3, 4]]).setElement 0 1 7).Rect ∧
    (Matrix.mk [[1, 2], [3, 4]]).mul (Matrix.mk [[5], [6]]) = .ok (Matrix.mk [[17], [39]]) ∧
    (Matrix.mk [[17], [39]]).Rect :=
  ⟨by decide,
   rectangular_invariant.2.1 (Matrix.mk [[1, 2], [3, 4]]) 0 1 7 (by decide) (by decide)
     (by decide),
   by decide,
   rectangular_invariant.2.2.2.2.2.1 (Matrix.mk [[1, 2], [3, 4]]) (Matrix.mk [[5], [6]])
     (Matrix.mk [[17], [39]]) (by decide)⟩

/-- C13: `A.norm()` has no `throw`; on a rectangular matrix it returns the square
root, truncated to an integer, of the sum `S` of the squares of all elements: the
one `n >= 0` with `n*n <= S < (n+1)*(n+1)`.  The norm of the 1×2 matrix `[[3, 4]]`
is `5`, and the norm of a matrix without rows or without columns is `0`. -/
theorem norm_is_truncated_sqrt :
    (∀ A : Matrix, A.Rect →
      0 ≤ A.norm ∧ A.norm * A.norm ≤ A.sumSquares ∧
      A.sumSquares < (A.norm + 1) * (A.norm + 1) ∧
      ∀ n : Int, 0 ≤ n → n * n ≤ A.sumSquares → A.sumSquares < (n + 1) * (n + 1) →
        A.norm = n) ∧
    (Matrix.mk [[3, 4]]).norm = 5 ∧
    (∀ A : Matrix, A.numRows = 0 ∨ A.numCols = 0 → A.norm = 0) := by
  refine ⟨?_, by decide, ?_⟩
  · intro A hA
    have hnorm : A.norm = sqrt A.sumSquares := by
      rw [Matrix.norm_eq_sqrt_sum, Matrix.sum_eq_sumSquares A hA]
    obtain ⟨b0, b1, b2⟩ := sqrt_bounds A.sumSquares (Matrix.sumSquares_nonneg A)
    rw [hnorm]
    exact ⟨b0, b1, b2, fun n h0 h1 h2 => sqrt_unique _ n h0 h1 h2⟩
  · intro A h
    rw [Matrix.norm_eq_sqrt_sum]
    rcases h with h | h
    · rw [h]
      simp [sqrt, sqrtAux]
    · rw [h]
      simp [sqrt, sqrtAux]

/-- C13, at `A = [[1, 2], [3, 4]]`: the sum of squares is `30` and the norm is `5`. -/
theorem norm_is_truncated_sqrt_witness :
    (Matrix.mk [[1, 2], [3, 4]]).Rect ∧ (Matrix.mk [[1, 2], [3, 4]]).sumSquares = 30 ∧
    (Matrix.mk [[1, 2], [3, 4]]).norm = 5 :=
  ⟨by decide, by decide,
   (norm_is_truncated_sqrt.1 (Matrix.mk [[1, 2], [3, 4]]) (by decide)).2.2.2 5
     (by decide) (by decide) (by decide)⟩

/-- C19: for a 2×2 matrix `[[a, b], [c, d]]` whose discriminant
`(a+d)^2 - 4*(a*d - b*c)` is a square `s*s` with `s >= 0`, the divisions by 2 in
`eigenValues` are exact and the returned pair `[l1, l2]` satisfies
`l1 + l2 == a + d`, `l1 * l2 == a*d - b*c` and `l1 >= l2`. -/
theorem eigenValues_exact_of_square_discriminant (a b c d s : Int) (hs : 0 ≤ s)
    (hD : (a + d) ^ 2 - 4 * (a * d - b * c) = s * s) :
    ∃ l1 l2 : Int, (Matrix.mk [[a, b], [c, d]]).eigenValues = .ok [l1, l2] ∧
      2 * l1 = a + d + s ∧ 2 * l2 = a + d - s ∧
      l1 + l2 = a + d ∧ l1 * l2 = a * d - b * c ∧ l2 ≤ l1 := by
  have hdisc : (a + d) * (a + d) - 4 * (a * d - b * c) = s * s := by
    rw [← hD]; ring
  obtain ⟨e1, e2⟩ := even_trace_add_root (a + d) (a * d - b * c) s hD
  have h1 := two_mul_tdiv_two (a + d + s) e1
  have h2 := two_mul_tdiv_two (a + d - s) e2
  refine ⟨Int.tdiv (a + d + s) 2, Int.tdiv (a + d - s) 2, ?_, h1, h2, ?_, ?_, ?_⟩
  · rw [Matrix.eigenValues_two_by_two, hdisc, sqrt_mul_self s hs]
  · linarith
  · have h4 : 4 * (Int.tdiv (a + d + s) 2 * Int.tdiv (a + d - s) 2) = 4 * (a * d - b * c) := by
      calc 4 * (Int.tdiv (a + d + s) 2 * Int.tdiv (a + d - s) 2)
          = (2 * Int.tdiv (a + d + s) 2) * (2 * Int.tdiv (a + d - s) 2) := by ring
        _ = (a + d + s) * (a + d - s) := by rw [h1, h2]
        _ = 4 * (a * d - b * c) := by linear_combination hD
    linarith
  · linarith

/-- C19, at `[[2, 0], [0, 3]]` (discriminant `1 = 1*1`): the pair is `[3, 2]`. -/
theorem eigenValues_exact_of_square_discriminant_witness :
    (0 : Int) ≤ 1 ∧ ((2 : Int) + 3) ^ 2 - 4 * (2 * 3 - 0 * 0) = 1 * 1 ∧
    ∃ l1 l2 : Int, (Matrix.mk [[2, 0], [0, 3]]).eigenValues = .ok [l1, l2] ∧
      2 * l1 = 2 + 3 + 1 ∧ 2 * l2 = 2 + 3 - 1 ∧
      l1 + l2 = 2 + 3 ∧ l1 * l2 = 2 * 3 - 0 * 0 ∧ l2 ≤ l1 :=
  ⟨by decide, by decide,
   eigenValues_exact_of_square_discriminant 2 0 0 3 1 (by decide) (by decide)⟩

/-- C20: for a 2×2 matrix `A = [[a, b], [c, d]]` whose `determinant()` is `1` or `-1`,
`inverse()` returns a matrix `inv` with `A * inv` and `inv * A` both equal to the
2×2 identity matrix. -/
theorem inverse_exact_of_unit_determinant (a b c d : Int)
    (h : (Matrix.mk [[a, b], [c, d]]).determinant = .ok 1 ∨
      (Matrix.mk [[a, b], [c, d]]).determinant = .ok (-1)) :
    ∃ inv : Matrix, (Matrix.mk [[a, b], [c, d]]).inverse = .ok inv ∧
      (Matrix.mk [[a, b], [c, d]]).mul inv = .ok (Matrix.mk [[1, 0], [0, 1]]) ∧
      inv.mul (Matrix.mk [[a, b], [c, d]]) = .ok (Matrix.mk [[1, 0], [0, 1]]) := by
  have hdet : (Matrix.mk [[a, b], [c, d]]).determinant = .ok (a * d - b * c) := by
    simp [Matrix.determinant, Matrix.numRows, Matrix.numCols, Matrix.getElement]
  rw [hdet] at h
  rcases h with h | h
  · have h1 : a * d - b * c = 1 := by injection h
    refine ⟨_, Matrix.inverse_of_det_one a b c d h1, ?_, ?_⟩
    · rw [Matrix.mul_two_by_two]
      have e1 : a * d + b * -c = 1 := by linarith
      have e2 : a * -b + b * a = 0 := by ring
      have e3 : c * d + d * -c = 0 := by ring
      have e4 : c * -b + d * a = 1 := by linarith
      rw [e1, e2, e3, e4]
    · rw [Matrix.mul_two_by_two]
      have e1 : d * a + -b * c = 1 := by linarith
      have e2 : d * b + -b * d = 0 := by ring
      have e3 : -c * a + a * c = 0 := by ring
      have e4 : -c * b + a * d = 1 := by linarith
      rw [e1, e2, e3, e4]
  · have h1 : a * d - b * c = -1 := by injection h
    refine ⟨_, Matrix.inverse_of_det_neg_one a b c d h1, ?_, ?_⟩
    · rw [Matrix.mul_two_by_two]
      have e1 : a * -d + b * c = 1 := by linarith
      have e2 : a * b + b * -a = 0 := by ring
      have e3 : c * -d + d * c = 0 := by ring
      have e4 : c * b + d * -a = 1 := by linarith
      rw [e1, e2, e3, e4]
    · rw [Matrix.mul_two_by_two]
      have e1 : -d * a + b * c = 1 := by linarith
      have e2 : -d * b + b * d = 0 := by ring
      have e3 : c * a + -a * c = 0 := by ring
      have e4 : c * b + -a * d = 1 := by linarith
      rw [e1, e2, e3, e4]

/-- C20, at `[[2, 1], [1, 1]]` (determinant `1`). -/
theorem inverse_exact_of_unit_determinant_witness :
    (Matrix.mk [[2, 1], [1, 1]]).determinant = .ok 1 ∧
    ∃ inv : Matrix, (Matrix.mk [[2, 1], [1, 1]]).inverse = .ok inv ∧
      (Matrix.mk [[2, 1], [1, 1]]).mul inv = .ok (Matrix.mk [[1, 0], [0, 1]]) ∧
      inv.mul (Matrix.mk [[2, 1], [1, 1]]) = .ok (Matrix.mk [[1, 0], [0, 1]]) :=
  ⟨by decide, inverse_exact_of_unit_determinant 2 1 1 1 (Or.inl (by decide))⟩

/-! ## Claims about computed values, on the 32-bit `int` -/

/-- C4 as stated fails: for `a = b = [65536]` the exact sum of products is
`4294967296`, which no `int` holds; `innerProduct` returns `0`. -/
theorem innerProduct_wraps_counterexample :
    (Vector.mk [65536]).size = (Vector.mk [65536]).size ∧
    inRange 65536 ∧
    (∑ i in Finset.range (Vector.mk [65536]).size,
      (Vector.mk [65536]).getElement i * (Vector.mk [65536]).getElement i) = 4294967296 ∧
    Machine.Vector.innerProduct (Vector.mk [65536]) (Vector.mk [65536]) = .ok 0 ∧
    Machine.Vector.innerProduct (Vector.mk [65536]) (Vector.mk [65536]) ≠
      .ok (∑ i in Finset.range (Vector.mk [65536]).size,
        (Vector.mk [65536]).getElement i * (Vector.mk [65536]).getElement i) := by
  decide

/-- C4, amended: for vectors `a`, `b` of equal size `n`, `a.innerProduct(b)` returns
the sum over `i < n` of `a[i] * b[i]` reduced modulo `2^32` into the range of `int`;
that is the exact sum exactly when the exact sum is in the range of `int`; for two
empty vectors it returns `0`. -/
theorem innerProduct_eq_wrapped_sum :
    (∀ a b : Vector, a.size = b.size →
      Machine.Vector.innerProduct a b =
        .ok (wrap (∑ i in Finset.range a.size, a.getElement i * b.getElement i)) ∧
      (Machine.Vector.innerProduct a b =
          .ok (∑ i in Finset.range a.size, a.getElement i * b.getElement i)
        ↔ inRange (∑ i in Finset.range a.size, a.getElement i * b.getElement i))) ∧
    Machine.Vector.innerProduct (Vector.new 0) (Vector.new 0) = .ok 0 := by
  refine ⟨?_, by decide⟩
  intro a b h
  have hval : Machine.Vector.innerProduct a b =
      .ok (wrap (∑ i in Finset.range a.size, a.getElement i * b.getElement i)) := by
    rw [Machine.Vector.innerProduct, if_neg (not_not.mpr h)]
    congr 1
    exact Machine.foldl_iadd_imul (fun i => a.getElement i) (fun i => b.getElement i) a.size
  refine ⟨hval, ?_⟩
  rw [hval, ← wrap_eq_self_iff]
  constructor
  · intro e
    injection e
  · intro e
    rw [e]

/-- C4, amended, at `a = [1, 2, 3]`, `b = [4, 5, 6]`: the inner product is `32`. -/
theorem innerProduct_eq_wrapped_sum_witness :
    (Vector.mk [1, 2, 3]).size = (Vector.mk [4, 5, 6]).size ∧
    Machine.Vector.innerProduct (Vector.mk [1, 2, 3]) (Vector.mk [4, 5, 6]) = .ok 32 :=
  ⟨by decide,
   ((innerProduct_eq_wrapped_sum.1 (Vector.mk [1, 2, 3]) (Vector.mk [4, 5, 6])
      (by decide)).1).trans (by decide)⟩

/-- C5 as stated fails: for `A = B = [[65536]]` the sum of products for position
`(0, 0)` is `4294967296`, which no `int` holds; the product matrix is `[[0]]`. -/
theorem matrix_mul_wraps_counterexample :
    (Matrix.mk [[65536]]).numCols = (Matrix.mk [[65536]]).numRows ∧
    inRange 65536 ∧
    (∑ k in Finset.range (Matrix.mk [[65536]]).numCols,
      (Matrix.mk [[65536]]).getElement 0 k * (Matrix.mk [[65536]]).getElement k 0)
        = 4294967296 ∧
    Machine.Matrix.mul (Matrix.mk [[65536]]) (Matrix.mk [[65536]]) = .ok (Matrix.mk [[0]]) ∧
    (Matrix.mk [[0]]).getElement 0 0 ≠
      ∑ k in Finset.range (Matrix.mk [[65536]]).numCols,
        (Matrix.mk [[65536]]).getElement 0 k * (Matrix.mk [[65536]]).getElement k 0 := by
  decide

/-- C5, amended: `A * B` throws its dimension-mismatch exception exactly when
`A.numCols() != B.numRows()`; otherwise it returns a matrix whose element `(i, j)`,
for every `i < A.numRows()` and `j < B.numCols()`, is the sum over
`k < A.numCols()` of `A[i][k] * B[k][j]` reduced modulo `2^32` into the range of
`int`, which is the exact sum exactly when the exact sum is in the range of `int`. -/
theorem matrix_mul_fails_iff_and_wrapped_entries (A B : Matrix) :
    (Machine.Matrix.mul A B = .error (.invalid_argument
        "Number of columns in first matrix must match number of rows in second matrix for multiplication")
      ↔ A.numCols ≠ B.numRows) ∧
    (A.numCols = B.numRows →
      ∃ R, Machine.Matrix.mul A B = .ok R ∧
        ∀ i j, i < A.numRows → j < B.numCols →
          R.getElement i j =
            wrap (∑ k in Finset.range A.numCols, A.getElement i k * B.getElement k j) ∧
          (R.getElement i j =
              ∑ k in Finset.range A.numCols, A.getElement i k * B.getElement k j
            ↔ inRange
              (∑ k in Finset.range A.numCols, A.getElement i k * B.getElement k j))) := by
  constructor
  · by_cases h : A.numCols = B.numRows
    · obtain ⟨R, hR, -⟩ := Machine.Matrix.mul_wrapped A B h
      simp [hR, h]
    · have hn : A.numCols ≠ B.numRows := h
      simp [Machine.Matrix.mul, if_pos hn, h]
  · intro h
    obtain ⟨R, hR, -, hget⟩ := Machine.Matrix.mul_wrapped A B h
    refine ⟨R, hR, ?_⟩
    intro i j hi hj
    refine ⟨hget i j hi hj, ?_⟩
    rw [hget i j hi hj]
    exact wrap_eq_self_iff _

/-- C5, amended, at `A = [[1, 2], [3, 4]]`, `B = [[5], [6]]`, and at a mismatching pair. -/
theorem matrix_mul_fails_iff_and_wrapped_entries_witness :
    (Matrix.mk [[1, 2], [3, 4]]).numCols = (Matrix.mk [[5], [6]]).numRows ∧
    Machine.Matrix.mul (Matrix.mk [[1, 2], [3, 4]]) (Matrix.mk [[5], [6]])
      = .ok (Matrix.mk [[17], [39]]) ∧
    (∃ R, Machine.Matrix.mul (Matrix.mk [[1, 2], [3, 4]]) (Matrix.mk [[5], [6]]) = .ok R ∧
      ∀ i j, i < (Matrix.mk [[1, 2], [3, 4]]).numRows → j < (Matrix.mk [[5], [6]]).numCols →
        R.getElement i j =
          wrap (∑ k in Finset.range (Matrix.mk [[1, 2], [3, 4]]).numCols,
            (Matrix.mk [[1, 2], [3, 4]]).getElement i k *
              (Matrix.mk [[5], [6]]).getElement k j) ∧
        (R.getElement i j =
            ∑ k in Finset.range (Matrix.mk [[1, 2], [3, 4]]).numCols,
              (Matrix.mk [[1, 2], [3, 4]]).getElement i k *
                (Matrix.mk [[5], [6]]).getElement k j
          ↔ inRange
            (∑ k in Finset.range (Matrix.mk [[1, 2], [3, 4]]).numCols,
              (Matrix.mk [[1, 2], [3, 4]]).getElement i k *
                (Matrix.mk [[5], [6]]).getElement k j))) ∧
    (Matrix.mk [[1, 2], [3, 4]]).numCols ≠ (Matrix.mk [[5]]).numRows ∧
    Machine.Matrix.mul (Matrix.mk [[1, 2], [3, 4]]) (Matrix.mk [[5]]) =
      .error (.invalid_argument
        "Number of columns in first matrix must match number of rows in second matrix for multiplication") :=
  ⟨by decide, by decide,
   (matrix_mul_fails_iff_and_wrapped_entries (Matrix.mk [[1, 2], [3, 4]])
      (Matrix.mk [[5], [6]])).2 (by decide),
   by decide,
   (matrix_mul_fails_iff_and_wrapped_entries (Matrix.mk [[1, 2], [3, 4]])
      (Matrix.mk [[5]])).1.mpr (by decide)⟩

/-- C11 as stated fails: for `[[65536, 0], [0, 65536]]` the value `a*d - b*c` is
`4294967296`, which no `int` holds; `determinant` returns `0`. -/
theorem determinant_wraps_counterexample :
    inRange 65536 ∧ (65536 : Int) * 65536 - 0 * 0 = 4294967296 ∧
    Machine.Matrix.determinant (Matrix.mk [[65536, 0], [0, 65536]]) = .ok 0 ∧
    Machine.Matrix.determinant (Matrix.mk [[65536, 0], [0, 65536]]) ≠
      .ok (65536 * 65536 - 0 * 0) := by
  decide

/-- C11, amended: `A.determinant()` throws its unsupported-shape exception exactly
when `A` is not 2×2; for a 2×2 matrix `[[a, b], [c, d]]` it returns `a*d - b*c`
reduced modulo `2^32` into the range of `int`, which is `a*d - b*c` itself exactly
when `a*d - b*c` is in the range of `int`; the determinant of `[[1, 2], [3, 4]]`
is `-2`. -/
theorem determinant_errors_and_wrapped_value :
    (∀ A : Matrix,
      (Machine.Matrix.determinant A =
          .error (.invalid_argument "Determinant calculation is only supported for 2x2 matrices")
        ↔ (A.numRows ≠ 2 ∨ A.numCols ≠ 2)) ∧
      (A.numRows = 2 → A.numCols = 2 →
        Machine.Matrix.determinant A = .ok (wrap
          (A.getElement 0 0 * A.getElement 1 1 - A.getElement 0 1 * A.getElement 1 0)))) ∧
    (∀ a b c d : Int,
      Machine.Matrix.determinant (Matrix.mk [[a, b], [c, d]]) = .ok (wrap (a * d - b * c)) ∧
      (Machine.Matrix.determinant (Matrix.mk [[a, b], [c, d]]) = .ok (a * d - b * c)
        ↔ inRange (a * d - b * c))) ∧
    Machine.Matrix.determinant (Matrix.mk [[1, 2], [3, 4]]) = .ok (-2) := by
  refine ⟨?_, ?_, by decide⟩
  · intro A
    by_cases hs : A.numRows ≠ 2 ∨ A.numCols ≠ 2
    · refine ⟨by simp [Machine.Matrix.determinant, if_pos hs, hs], ?_⟩
      intro h1 h2
      exact absurd hs (by simp [h1, h2])
    · have hdet := Machine.Matrix.determinant_wrapped A hs
      refine ⟨?_, fun _ _ => hdet⟩
      rw [hdet]
      constructor
      · intro h
        cases h
      · intro h
        exact absurd h hs
  · intro a b c d
    have hdet : Machine.Matrix.determinant (Matrix.mk [[a, b], [c, d]])
        = .ok (wrap (a * d - b * c)) := by
      rw [Machine.Matrix.determinant_wrapped _ (Matrix.two_by_two_shape a b c d)]
      simp [Matrix.getElement]
    refine ⟨hdet, ?_⟩
    rw [hdet, ← wrap_eq_self_iff]
    constructor
    · intro e
      injection e
    · intro e
      rw [e]

/-- C11, amended, at the 2×3 matrix `[[1, 2, 3], [4, 5, 6]]` and at `[[2, 1], [1, 1]]`. -/
theorem determinant_errors_and_wrapped_value_witness :
    Machine.Matrix.determinant (Matrix.mk [[1, 2, 3], [4, 5, 6]]) =
      .error (.invalid_argument "Determinant calculation is only supported for 2x2 matrices") ∧
    Machine.Matrix.determinant (Matrix.mk [[2, 1], [1, 1]]) = .ok 1 :=
  ⟨((determinant_errors_and_wrapped_value.1 (Matrix.mk [[1, 2, 3], [4, 5, 6]])).1).mpr
     (by decide),
   ((determinant_errors_and_wrapped_value.1 (Matrix.mk [[2, 1], [1, 1]])).2
      (by decide) (by decide)).trans (by decide)⟩

/-- C14 as stated fails: `[[2147483647]] + [[1]]` is `[[-2147483648]]` and
`[[-2147483648]] - [[1]]` is `[[2147483647]]`, since `2147483648` and `-2147483649`
are not values of `int`. -/
theorem matrix_add_wraps_counterexample :
    inRange 2147483647 ∧ inRange (-2147483648) ∧ inRange 1 ∧
    Machine.Matrix.add (Matrix.mk [[2147483647]]) (Matrix.mk [[1]])
      = .ok (Matrix.mk [[-2147483648]]) ∧
    (Matrix.mk [[-2147483648]]).getElement 0 0 ≠
      (Matrix.mk [[2147483647]]).getElement 0 0 + (Matrix.mk [[1]]).getElement 0 0 ∧
    Machine.Matrix.sub (Matrix.mk [[-2147483648]]) (Matrix.mk [[1]])
      = .ok (Matrix.mk [[2147483647]]) ∧
    (Matrix.mk [[2147483647]]).getElement 0 0 ≠
      (Matrix.mk [[-2147483648]]).getElement 0 0 - (Matrix.mk [[1]]).getElement 0 0 := by
  decide

/-- C14, amended: `A + B` and `A - B` throw their dimension-mismatch exceptions
exactly when the row counts or the column counts differ; otherwise each returns a
matrix with the row and column counts of `A`, rectangular, whose element `(i, j)`
is `A[i][j] + B[i][j]`, respectively `A[i][j] - B[i][j]`, reduced modulo `2^32` into
the range of `int`: the exact sum or difference exactly when that is in the range
of `int`. -/
theorem matrix_add_sub_fail_iff_and_wrapped_entries (A B : Matrix) :
    (Machine.Matrix.add A B =
        .error (.invalid_argument "Matrix dimensions must match for addition")
      ↔ (A.numRows ≠ B.numRows ∨ A.numCols ≠ B.numCols)) ∧
    (Machine.Matrix.sub A B =
        .error (.invalid_argument "Matrix dimensions must match for subtraction")
      ↔ (A.numRows ≠ B.numRows ∨ A.numCols ≠ B.numCols)) ∧
    (A.numRows = B.numRows → A.numCols = B.numCols →
      (∃ R, Machine.Matrix.add A B = .ok R ∧ R.numRows = A.numRows ∧
        R.numCols = A.numCols ∧ R.HasShape A.numRows A.numCols ∧
        ∀ i j, i < A.numRows → j < A.numCols →
          R.getElement i j = wrap (A.getElement i j + B.getElement i j) ∧
          (R.getElement i j = A.getElement i j + B.getElement i j
            ↔ inRange (A.getElement i j + B.getElement i j))) ∧
      (∃ R, Machine.Matrix.sub A B = .ok R ∧ R.numRows = A.numRows ∧
        R.numCols = A.numCols ∧ R.HasShape A.numRows A.numCols ∧
        ∀ i j, i < A.numRows → j < A.numCols →
          R.getElement i j = wrap (A.getElement i j - B.getElement i j) ∧
          (R.getElement i j = A.getElement i j - B.getElement i j
            ↔ inRange (A.getElement i j - B.getElement i j)))) := by
  by_cases hs : A.numRows ≠ B.numRows ∨ A.numCols ≠ B.numCols
  · refine ⟨by simp [Machine.Matrix.add, if_pos hs, hs],
      by simp [Machine.Matrix.sub, if_pos hs, hs], ?_⟩
    intro h1 h2
    exact absurd hs (by simp [h1, h2])
  · have hr : A.numRows = B.numRows := by
      by_contra h
      exact hs (Or.inl h)
    have hc : A.numCols = B.numCols := by
      by_contra h
      exact hs (Or.inr h)
    obtain ⟨R, hR, hshape, hget⟩ := Machine.Matrix.add_wrapped A B hr hc
    obtain ⟨S, hS, hshapeS, hgetS⟩ := Machine.Matrix.sub_wrapped A B hr hc
    obtain ⟨r1, r2⟩ := Matrix.counts_of_shape_like A R hshape
    obtain ⟨s1, s2⟩ := Matrix.counts_of_shape_like A S hshapeS
    refine ⟨?_, ?_, fun _ _ => ⟨⟨R, hR, r1, r2, hshape, ?_⟩, ⟨S, hS, s1, s2, hshapeS, ?_⟩⟩⟩
    · rw [hR]
      constructor
      · intro h
        cases h
      · intro h
        exact absurd h hs
    · rw [hS]
      constructor
      · intro h
        cases h
      · intro h
        exact absurd h hs
    · intro i j hi hj
      refine ⟨hget i j hi hj, ?_⟩
      rw [hget i j hi hj]
      exact wrap_eq_self_iff _
    · intro i j hi hj
      refine ⟨hgetS i j hi hj, ?_⟩
      rw [hgetS i j hi hj]
      exact wrap_eq_self_iff _

/-- C14, amended, at `[[1, 2], [3, 4]]` with `[[10, 20], [30, 40]]`, and with the
1×2 `[[10, 20]]`. -/
theorem matrix_add_sub_fail_iff_and_wrapped_entries_witness :
    Machine.Matrix.add (Matrix.mk [[1, 2], [3, 4]]) (Matrix.mk [[10, 20]]) =
      .error (.invalid_argument "Matrix dimensions must match for addition") ∧
    Machine.Matrix.add (Matrix.mk [[1, 2], [3, 4]]) (Matrix.mk [[10, 20], [30, 40]]) =
      .ok (Matrix.mk [[11, 22], [33, 44]]) ∧
    (∃ R, Machine.Matrix.add (Matrix.mk [[1, 2], [3, 4]]) (Matrix.mk [[10, 20], [30, 40]])
        = .ok R ∧
      R.numRows = (Matrix.mk [[1, 2], [3, 4]]).numRows ∧
      R.numCols = (Matrix.mk [[1, 2], [3, 4]]).numCols ∧
      R.HasShape (Matrix.mk [[1, 2], [3, 4]]).numRows (Matrix.mk [[1, 2], [3, 4]]).numCols ∧
      ∀ i j, i < (Matrix.mk [[1, 2], [3, 4]]).numRows → j < (Matrix.mk [[1, 2], [3, 4]]).numCols →
        R.getElement i j = wrap ((Matrix.mk [[1, 2], [3, 4]]).getElement i j +
          (Matrix.mk [[10, 20], [30, 40]]).getElement i j) ∧
        (R.getElement i j = (Matrix.mk [[1, 2], [3, 4]]).getElement i j +
            (Matrix.mk [[10, 20], [30, 40]]).getElement i j
          ↔ inRange ((Matrix.mk [[1, 2], [3, 4]]).getElement i j +
            (Matrix.mk [[10, 20], [30, 40]]).getElement i j))) :=
  ⟨(matrix_add_sub_fail_iff_and_wrapped_entries (Matrix.mk [[1, 2], [3, 4]])
      (Matrix.mk [[10, 20]])).1.mpr (by decide),
   by decide,
   ((matrix_add_sub_fail_iff_and_wrapped_entries (Matrix.mk [[1, 2], [3, 4]])
      (Matrix.mk [[10, 20], [30, 40]])).2.2 (by decide) (by decide)).1⟩

/-- C16 as stated fails: `[[1, 2], [3, 4]] * 1073741824` is
`[[1073741824, -2147483648], [-1073741824, 0]]`, since `2147483648`, `3221225472`
and `4294967296` are not values of `int`. -/
theorem mulScalar_wraps_counterexample :
    inRange 1073741824 ∧
    Machine.Matrix.mulScalar (Matrix.mk [[1, 2], [3, 4]]) 1073741824 =
      Matrix.mk [[1073741824, -2147483648], [-1073741824, 0]] ∧
    (Machine.Matrix.mulScalar (Matrix.mk [[1, 2], [3, 4]]) 1073741824).getElement 0 1 ≠
      (Matrix.mk [[1, 2], [3, 4]]).getElement 0 1 * 1073741824 := by
  decide

/-- C16, amended: the scalar product `A * s` has no `throw`; the returned matrix has
the row and column counts of `A`, is rectangular, and its element `(i, j)` is
`A[i][j] * s` reduced modulo `2^32` into the range of `int`: the exact product
exactly when that is in the range of `int`; `A * 0` is the all-zero matrix
`Matrix(A.numRows(), A.numCols())`. -/
theorem mulScalar_shape_and_wrapped_entries (A : Matrix) :
    (∀ s : Int,
      (Machine.Matrix.mulScalar A s).numRows = A.numRows ∧
      (Machine.Matrix.mulScalar A s).numCols = A.numCols ∧
      (Machine.Matrix.mulScalar A s).HasShape A.numRows A.numCols ∧
      ∀ i j, i < A.numRows → j < A.numCols →
        (Machine.Matrix.mulScalar A s).getElement i j = wrap (A.getElement i j * s) ∧
        ((Machine.Matrix.mulScalar A s).getElement i j = A.getElement i j * s
          ↔ inRange (A.getElement i j * s))) ∧
    Machine.Matrix.mulScalar A 0 = Matrix.new A.numRows A.numCols ∧
    (∀ i j, (Machine.Matrix.mulScalar A 0).getElement i j = 0) := by
  have hall : ∀ s : Int,
      (Machine.Matrix.mulScalar A s).numRows = A.numRows ∧
      (Machine.Matrix.mulScalar A s).numCols = A.numCols ∧
      (Machine.Matrix.mulScalar A s).HasShape A.numRows A.numCols ∧
      ∀ i j, i < A.numRows → j < A.numCols →
        (Machine.Matrix.mulScalar A s).getElement i j = wrap (A.getElement i j * s) ∧
        ((Machine.Matrix.mulScalar A s).getElement i j = A.getElement i j * s
          ↔ inRange (A.getElement i j * s)) := by
    intro s
    obtain ⟨h1, h2⟩ := Machine.Matrix.mulScalar_wrapped A s
    obtain ⟨c1, c2⟩ := Matrix.counts_of_shape_like A _ h1
    refine ⟨c1, c2, h1, ?_⟩
    intro i j hi hj
    refine ⟨h2 i j hi hj, ?_⟩
    rw [h2 i j hi hj]
    exact wrap_eq_self_iff _
  have hzero : Machine.Matrix.mulScalar A 0 = Matrix.new A.numRows A.numCols := by
    obtain ⟨-, -, hshape, hget⟩ := hall 0
    have hnew := Matrix.hasShape_new A.numRows A.numCols
    apply Matrix.ext_of_entries
    · rw [hshape.1, hnew.1]
    · intro a ha
      rw [hshape.1] at ha
      rw [Matrix.HasShape.length_row_eq_cols _ _ _ hshape a ha,
        Matrix.HasShape.length_row_eq_cols _ _ _ hnew a ha]
    · intro a b ha hb
      rw [hshape.1] at ha
      rw [Matrix.HasShape.length_row_eq_cols _ _ _ hshape a ha] at hb
      rw [(hget a b ha hb).1, Matrix.getElement_new, mul_zero]
      decide
  refine ⟨hall, hzero, ?_⟩
  intro i j
  rw [hzero, Matrix.getElement_new]

/-- C16, amended, at `A = [[1, 2], [3, 4]]`, `s = 3`, position `(1, 0)`. -/
theorem mulScalar_shape_and_wrapped_entries_witness :
    (1 : Nat) < (Matrix.mk [[1, 2], [3, 4]]).numRows ∧
    (0 : Nat) < (Matrix.mk [[1, 2], [3, 4]]).numCols ∧
    (Machine.Matrix.mulScalar (Matrix.mk [[1, 2], [3, 4]]) 3).getElement 1 0 = 9 :=
  ⟨by decide, by decide,
   ((((mulScalar_shape_and_wrapped_entries (Matrix.mk [[1, 2], [3, 4]])).1 3).2.2.2 1 0
      (by decide) (by decide)).1).trans (by decide)⟩

/-- C8 as stated fails: `[[65536, 0], [0, 65536]]` is 2×2 with
`a*d - b*c = 4294967296`, not zero, yet the determinant computed in `int` is `0` and
`inverse` throws the singular-matrix exception; and
`[[-2147483648, 1], [-2147483647, 1]]` is 2×2 with `a*d - b*c = -1`, yet the last
quotient is `INT_MIN / -1` and `inverse` returns no matrix. -/
theorem inverse_errors_counterexample :
    inRange 65536 ∧ (65536 : Int) * 65536 - 0 * 0 ≠ 0 ∧
    Machine.Matrix.inverse (Matrix.mk [[65536, 0], [0, 65536]]) =
      some (.error (.invalid_argument "Matrix is singular, cannot be inverted")) ∧
    inRange (-2147483648) ∧ inRange (-2147483647) ∧
    (-2147483648 : Int) * 1 - 1 * (-2147483647) = -1 ∧
    Machine.Matrix.inverse (Matrix.mk [[-2147483648, 1], [-2147483647, 1]]) = none ∧
    (¬ ∃ R, Machine.Matrix.inverse (Matrix.mk [[-2147483648, 1], [-2147483647, 1]])
      = some (.ok R)) := by
  refine ⟨by decide, by decide, by decide, by decide, by decide, by decide, by decide, ?_⟩
  rintro ⟨R, hR⟩
  have hnone : Machine.Matrix.inverse (Matrix.mk [[-2147483648, 1], [-2147483647, 1]])
      = none := by decide
  rw [hnone] at hR
  cases hR

/-- C8, amended: `A.inverse()` throws its unsupported-shape exception exactly when
`A` is not 2×2, and a matrix that is not 2×2 never gets the singular-matrix
exception; a 2×2 matrix gets the singular-matrix exception exactly when `a*d - b*c`
computed in `int` (reduced modulo `2^32`) is `0`, which for `a*d - b*c` in the range
of `int` means `a*d - b*c == 0`; a 2×2 matrix whose computed determinant is not `0`
and none of whose four quotients is `INT_MIN / -1` gets a 2×2 matrix back. -/
theorem inverse_errors_int (A : Matrix) :
    (Machine.Matrix.inverse A =
        some (.error (.invalid_argument "Matrix inversion is only supported for 2x2 matrices"))
      ↔ (A.numRows ≠ 2 ∨ A.numCols ≠ 2)) ∧
    ((A.numRows ≠ 2 ∨ A.numCols ≠ 2) →
      Machine.Matrix.inverse A ≠
        some (.error (.invalid_argument "Matrix is singular, cannot be inverted"))) ∧
    (A.numRows = 2 → A.numCols = 2 →
      (Machine.Matrix.inverse A =
          some (.error (.invalid_argument "Matrix is singular, cannot be inverted"))
        ↔ wrap (A.getElement 0 0 * A.getElement 1 1 - A.getElement 0 1 * A.getElement 1 0)
          = 0)) ∧
    (A.numRows = 2 → A.numCols = 2 →
      inRange (A.getElement 0 0 * A.getElement 1 1 - A.getElement 0 1 * A.getElement 1 0) →
      (Machine.Matrix.inverse A =
          some (.error (.invalid_argument "Matrix is singular, cannot be inverted"))
        ↔ A.getElement 0 0 * A.getElement 1 1 - A.getElement 0 1 * A.getElement 1 0 = 0)) ∧
    (A.numRows = 2 → A.numCols = 2 →
      wrap (A.getElement 0 0 * A.getElement 1 1 - A.getElement 0 1 * A.getElement 1 0) ≠ 0 →
      ¬ (wrap (A.getElement 0 0 * A.getElement 1 1 - A.getElement 0 1 * A.getElement 1 0) = -1 ∧
        (A.getElement 1 1 = INT_MIN ∨ Machine.ineg (A.getElement 0 1) = INT_MIN ∨
          Machine.ineg (A.getElement 1 0) = INT_MIN ∨ A.getElement 0 0 = INT_MIN)) →
      ∃ R, Machine.Matrix.inverse A = some (.ok R) ∧ R.numRows = 2 ∧ R.numCols = 2) := by
  by_cases hs : A.numRows ≠ 2 ∨ A.numCols ≠ 2
  · have hinv : Machine.Matrix.inverse A = some
        (.error (.invalid_argument "Matrix inversion is only supported for 2x2 matrices")) := by
      rw [Machine.Matrix.inverse, if_pos hs]
    refine ⟨by simp [hinv, hs], ?_, ?_, ?_, ?_⟩
    · intro _
      rw [hinv]
      decide
    · intro h1 h2
      exact absurd hs (by simp [h1, h2])
    · intro h1 h2
      exact absurd hs (by simp [h1, h2])
    · intro h1 h2
      exact absurd hs (by simp [h1, h2])
  · have hsing : Machine.Matrix.inverse A =
          some (.error (.invalid_argument "Matrix is singular, cannot be inverted"))
        ↔ wrap (A.getElement 0 0 * A.getElement 1 1 - A.getElement 0 1 * A.getElement 1 0)
          = 0 := by
      constructor
      · intro h
        by_contra h0
        exact Machine.Matrix.inverse_not_error A hs h0 _ h
      · intro h0
        exact Machine.Matrix.inverse_of_det_zero A hs h0
    refine ⟨?_, fun h => absurd h hs, fun _ _ => hsing, ?_, ?_⟩
    · constructor
      · intro h
        by_cases h0 : wrap
            (A.getElement 0 0 * A.getElement 1 1 - A.getElement 0 1 * A.getElement 1 0) = 0
        · rw [Machine.Matrix.inverse_of_det_zero A hs h0] at h
          exact absurd h (by decide)
        · exact absurd h (Machine.Matrix.inverse_not_error A hs h0 _)
      · intro h
        exact absurd h hs
    · intro _ _ hr
      rw [hsing, wrap_of_inRange _ hr]
    · intro _ _ h0 hq
      have hinv := Machine.Matrix.inverse_of_quotients A hs _ rfl h0
        (fun h => hq ⟨h.2, Or.inl h.1⟩)
        (fun h => hq ⟨h.2, Or.inr (Or.inl h.1)⟩)
        (fun h => hq ⟨h.2, Or.inr (Or.inr (Or.inl h.1))⟩)
        (fun h => hq ⟨h.2, Or.inr (Or.inr (Or.inr h.1))⟩)
      refine ⟨_, hinv, ?_, ?_⟩
      · simp [Matrix.numRows, Matrix.new, Matrix.setElement]
      · simp [Matrix.numCols, Matrix.new, Matrix.setElement, List.replicate]

/-- C8, amended, at a 2×3 matrix, at the singular `[[2, 1], [4, 2]]` and at
`[[2, 1], [1, 1]]`. -/
theorem inverse_errors_int_witness :
    Machine.Matrix.inverse (Matrix.mk [[1, 2, 3], [4, 5, 6]]) =
      some (.error (.invalid_argument "Matrix inversion is only supported for 2x2 matrices")) ∧
    Machine.Matrix.inverse (Matrix.mk [[2, 1], [4, 2]]) =
      some (.error (.invalid_argument "Matrix is singular, cannot be inverted")) ∧
    ∃ R, Machine.Matrix.inverse (Matrix.mk [[2, 1], [1, 1]]) = some (.ok R) ∧
      R.numRows = 2 ∧ R.numCols = 2 :=
  ⟨(inverse_errors_int (Matrix.mk [[1, 2, 3], [4, 5, 6]])).1.mpr (by decide),
   ((inverse_errors_int (Matrix.mk [[2, 1], [4, 2]])).2.2.1 (by decide) (by decide)).mpr
     (by decide),
   (inverse_errors_int (Matrix.mk [[2, 1], [1, 1]])).2.2.2.2 (by decide) (by decide)
     (by decide) (by decide)⟩

/-- C10 as stated fails: `[[0, 65536], [65536, 0]]` has `a*d - b*c = -4294967296`,
not zero, and the stated quotients are all `0`; the determinant computed in `int`
is `0` and `inverse` throws the singular-matrix exception. -/
theorem inverse_formula_counterexample :
    inRange 65536 ∧ (0 : Int) * 0 - 65536 * 65536 = -4294967296 ∧
    (0 : Int) * 0 - 65536 * 65536 ≠ 0 ∧
    Machine.Matrix.inverse (Matrix.mk [[0, 65536], [65536, 0]]) =
      some (.error (.invalid_argument "Matrix is singular, cannot be inverted")) ∧
    Machine.Matrix.inverse (Matrix.mk [[0, 65536], [65536, 0]]) ≠
      some (.ok (Matrix.mk
        [[Int.tdiv 0 (-4294967296), Int.tdiv (-65536) (-4294967296)],
         [Int.tdiv (-65536) (-4294967296), Int.tdiv 0 (-4294967296)]])) := by
  decide

/-- C10, amended: for a 2×2 matrix `[[a, b], [c, d]]` whose determinant `det`
computed in `int` (`a*d - b*c` reduced modulo `2^32`) is not `0` and none of whose
quotients is `INT_MIN / -1`, `inverse()` returns
`[[d/det, (-b)/det], [(-c)/det, a/det]]` with `-b`, `-c` computed in `int` and every
division truncating toward zero (the quotient of the magnitudes, signed as the exact
quotient); when `a*d - b*c`, `-b` and `-c` are in the range of `int` these are the
exact values; the inverse of `[[4, 7], [2, 6]]` (determinant `10`) is the zero
matrix. -/
theorem inverse_formula_int :
    (∀ a b c d : Int, wrap (a * d - b * c) ≠ 0 →
      ¬ (wrap (a * d - b * c) = -1 ∧
        (d = INT_MIN ∨ wrap (-b) = INT_MIN ∨ wrap (-c) = INT_MIN ∨ a = INT_MIN)) →
      Machine.Matrix.inverse (Matrix.mk [[a, b], [c, d]]) = some (.ok (Matrix.mk
        [[Int.tdiv d (wrap (a * d - b * c)), Int.tdiv (wrap (-b)) (wrap (a * d - b * c))],
         [Int.tdiv (wrap (-c)) (wrap (a * d - b * c)), Int.tdiv a (wrap (a * d - b * c))]]))) ∧
    (∀ a b c d : Int, inRange (a * d - b * c) → inRange (-b) → inRange (-c) →
      a * d - b * c ≠ 0 →
      ¬ (a * d - b * c = -1 ∧ (d = INT_MIN ∨ -b = INT_MIN ∨ -c = INT_MIN ∨ a = INT_MIN)) →
      Machine.Matrix.inverse (Matrix.mk [[a, b], [c, d]]) = some (.ok (Matrix.mk
        [[Int.tdiv d (a * d - b * c), Int.tdiv (-b) (a * d - b * c)],
         [Int.tdiv (-c) (a * d - b * c), Int.tdiv a (a * d - b * c)]]))) ∧
    (∀ x y : Int,
      Int.tdiv x y = Int.sign x * Int.sign y * ((x.natAbs / y.natAbs : Nat) : Int)) ∧
    Machine.Matrix.determinant (Matrix.mk [[4, 7], [2, 6]]) = .ok 10 ∧
    Machine.Matrix.inverse (Matrix.mk [[4, 7], [2, 6]]) =
      some (.ok (Matrix.mk [[0, 0], [0, 0]])) := by
  have hmain : ∀ a b c d : Int, wrap (a * d - b * c) ≠ 0 →
      ¬ (wrap (a * d - b * c) = -1 ∧
        (d = INT_MIN ∨ wrap (-b) = INT_MIN ∨ wrap (-c) = INT_MIN ∨ a = INT_MIN)) →
      Machine.Matrix.inverse (Matrix.mk [[a, b], [c, d]]) = some (.ok (Matrix.mk
        [[Int.tdiv d (wrap (a * d - b * c)), Int.tdiv (wrap (-b)) (wrap (a * d - b * c))],
         [Int.tdiv (wrap (-c)) (wrap (a * d - b * c)),
          Int.tdiv a (wrap (a * d - b * c))]])) := by
    intro a b c d h0 hq
    exact Machine.Matrix.inverse_two_by_two_wrapped a b c d _ rfl h0
      (fun h => hq ⟨h.2, Or.inl h.1⟩)
      (fun h => hq ⟨h.2, Or.inr (Or.inl h.1)⟩)
      (fun h => hq ⟨h.2, Or.inr (Or.inr (Or.inl h.1))⟩)
      (fun h => hq ⟨h.2, Or.inr (Or.inr (Or.inr h.1))⟩)
  refine ⟨hmain, ?_, tdiv_truncates, by decide, by decide⟩
  intro a b c d hr hb hc h0 hq
  have h := hmain a b c d
  rw [wrap_of_inRange _ hr, wrap_of_inRange _ hb, wrap_of_inRange _ hc] at h
  exact h h0 hq

/-- C10, amended, at `[[1, 7], [0, -3]]` (determinant `-3`): `(-7)/(-3)` truncates
to `2` and `1/(-3)` to `0`, so the inverse is `[[1, 2], [0, 0]]`. -/
theorem inverse_formula_int_witness :
    inRange ((1 : Int) * (-3) - 7 * 0) ∧ inRange (-(7 : Int)) ∧ inRange (-(0 : Int)) ∧
    (1 : Int) * (-3) - 7 * 0 ≠ 0 ∧
    Machine.Matrix.inverse (Matrix.mk [[1, 7], [0, -3]]) =
      some (.ok (Matrix.mk [[1, 2], [0, 0]])) :=
  ⟨by decide, by decide, by decide, by decide,
   (inverse_formula_int.2.1 1 7 0 (-3) (by decide) (by decide) (by decide) (by decide)
      (by decide)).trans (by decide)⟩

/-- C9 as stated fails: `[[2, 0], [0, 2]]` has determinant `4`, its `inverse()` is the
zero matrix (`2 / 4` and `0 / 4` truncate to `0`), and the product with it is the
zero matrix, not the identity. -/
theorem mul_inverse_int_counterexample :
    Machine.Matrix.determinant (Matrix.mk [[2, 0], [0, 2]]) = .ok 4 ∧
    Machine.Matrix.inverse (Matrix.mk [[2, 0], [0, 2]]) =
      some (.ok (Matrix.mk [[0, 0], [0, 0]])) ∧
    Machine.Matrix.mul (Matrix.mk [[2, 0], [0, 2]]) (Matrix.mk [[0, 0], [0, 0]]) =
      .ok (Matrix.mk [[0, 0], [0, 0]]) ∧
    Machine.Matrix.mul (Matrix.mk [[2, 0], [0, 2]]) (Matrix.mk [[0, 0], [0, 0]]) ≠
      .ok (Matrix.mk [[1, 0], [0, 1]]) := by
  decide

/-- C9, amended: for a 2×2 matrix `A = [[a, b], [c, d]]` whose `determinant()` is `1`,
or is `-1` with none of the four quotients of `inverse()` being `INT_MIN / -1`,
`inverse()` returns a matrix `inv` and `A * inv` is the 2×2 identity matrix. -/
theorem mul_inverse_eq_identity_of_unit_determinant (a b c d : Int)
    (h : Machine.Matrix.determinant (Matrix.mk [[a, b], [c, d]]) = .ok 1 ∨
      (Machine.Matrix.determinant (Matrix.mk [[a, b], [c, d]]) = .ok (-1) ∧
        d ≠ INT_MIN ∧ Machine.ineg b ≠ INT_MIN ∧ Machine.ineg c ≠ INT_MIN ∧ a ≠ INT_MIN)) :
    ∃ inv, Machine.Matrix.inverse (Matrix.mk [[a, b], [c, d]]) = some (.ok inv) ∧
      Machine.Matrix.mul (Matrix.mk [[a, b], [c, d]]) inv = .ok (Matrix.mk [[1, 0], [0, 1]]) := by
  have hdet : Machine.Matrix.determinant (Matrix.mk [[a, b], [c, d]])
      = .ok (wrap (a * d - b * c)) := by
    rw [Machine.Matrix.determinant_wrapped _ (Matrix.two_by_two_shape a b c d)]
    simp [Matrix.getElement]
  rw [hdet] at h
  rcases h with h | ⟨h, h1, h2, h3, h4⟩
  · exact Machine.Matrix.mul_inverse_of_det_one a b c d (by injection h)
  · exact Machine.Matrix.mul_inverse_of_det_neg_one a b c d (by injection h) h1 h2 h3 h4

/-- C9, amended, at `[[2, 1], [1, 1]]` (determinant `1`) and at `[[1, 2], [1, 1]]`
(determinant `-1`). -/
theorem mul_inverse_eq_identity_of_unit_determinant_witness :
    Machine.Matrix.determinant (Matrix.mk [[2, 1], [1, 1]]) = .ok 1 ∧
    (∃ inv, Machine.Matrix.inverse (Matrix.mk [[2, 1], [1, 1]]) = some (.ok inv) ∧
      Machine.Matrix.mul (Matrix.mk [[2, 1], [1, 1]]) inv = .ok (Matrix.mk [[1, 0], [0, 1]])) ∧
    Machine.Matrix.determinant (Matrix.mk [[1, 2], [1, 1]]) = .ok (-1) ∧
    (∃ inv, Machine.Matrix.inverse (Matrix.mk [[1, 2], [1, 1]]) = some (.ok inv) ∧
      Machine.Matrix.mul (Matrix.mk [[1, 2], [1, 1]]) inv = .ok (Matrix.mk [[1, 0], [0, 1]])) :=
  ⟨by decide,
   mul_inverse_eq_identity_of_unit_determinant 2 1 1 1 (Or.inl (by decide)),
   by decide,
   mul_inverse_eq_identity_of_unit_determinant 1 2 1 1
     (Or.inr ⟨by decide, by decide, by decide, by decide, by decide⟩)⟩

/-- C12 as stated fails: `[[50000, 0], [0, 0]]` has discriminant
`(a+d)^2 - 4*(a*d - b*c) = 2500000000 >= 0`, whose truncated square root is `50000`,
so the stated result is `[50000, 0]`; computed in `int` the discriminant is
`-1794967296`, `sqrt` has no result for it, and `eigenValues` returns nothing. -/
theorem eigenValues_overflow_counterexample :
    inRange 50000 ∧
    (0 : Int) ≤ (50000 + 0) ^ 2 - 4 * (50000 * 0 - 0 * 0) ∧
    ((50000 : Int) + 0) ^ 2 - 4 * (50000 * 0 - 0 * 0) = 50000 * 50000 ∧
    wrap ((50000 + 0) ^ 2 - 4 * (50000 * 0 - 0 * 0)) = -1794967296 ∧
    Machine.Matrix.eigenValues (Matrix.mk [[50000, 0], [0, 0]]) = none ∧
    Machine.Matrix.eigenValues (Matrix.mk [[50000, 0], [0, 0]]) ≠
      some (.ok [Int.tdiv (50000 + 0 + 50000) 2, Int.tdiv (50000 + 0 - 50000) 2]) := by
  decide

/-- C12, amended: `A.eigenValues()` throws its unsupported-shape exception exactly
when `A` is not 2×2; for a 2×2 matrix `[[a, b], [c, d]]` whose discriminant `D`
computed in `int` (`(a+d)^2 - 4*(a*d - b*c)` reduced modulo `2^32`) is not negative it
returns `[(a+d+s)/2, (a+d-s)/2]` in that order, with `s >= 0`,
`s*s <= D < (s+1)*(s+1)`, the two numerators computed in `int` and `/` truncating
toward zero; when the exact discriminant and the two exact numerators are in the
range of `int` these are the exact values; `eigenValues` of `[[2, 0], [0, 3]]` is
`[3, 2]`. -/
theorem eigenValues_errors_and_int_value :
    (∀ A : Matrix,
      Machine.Matrix.eigenValues A =
          some (.error
            (.invalid_argument "Eigenvalues calculation is only supported for 2x2 matrices"))
        ↔ (A.numRows ≠ 2 ∨ A.numCols ≠ 2)) ∧
    (∀ a b c d : Int, 0 ≤ wrap ((a + d) ^ 2 - 4 * (a * d - b * c)) →
      ∃ s : Int, 0 ≤ s ∧ s * s ≤ wrap ((a + d) ^ 2 - 4 * (a * d - b * c)) ∧
        wrap ((a + d) ^ 2 - 4 * (a * d - b * c)) < (s + 1) * (s + 1) ∧
        Machine.Matrix.eigenValues (Matrix.mk [[a, b], [c, d]]) =
          some (.ok [Int.tdiv (wrap (a + d + s)) 2, Int.tdiv (wrap (a + d - s)) 2])) ∧
    (∀ a b c d : Int, inRange ((a + d) ^ 2 - 4 * (a * d - b * c)) →
      0 ≤ (a + d) ^ 2 - 4 * (a * d - b * c) →
      ∃ s : Int, 0 ≤ s ∧ s * s ≤ (a + d) ^ 2 - 4 * (a * d - b * c) ∧
        (a + d) ^ 2 - 4 * (a * d - b * c) < (s + 1) * (s + 1) ∧
        (inRange (a + d + s) → inRange (a + d - s) →
          Machine.Matrix.eigenValues (Matrix.mk [[a, b], [c, d]]) =
            some (.ok [Int.tdiv (a + d + s) 2, Int.tdiv (a + d - s) 2]))) ∧
    Machine.Matrix.eigenValues (Matrix.mk [[2, 0], [0, 3]]) = some (.ok [3, 2]) := by
  have hmain : ∀ a b c d : Int, 0 ≤ wrap ((a + d) ^ 2 - 4 * (a * d - b * c)) →
      ∃ s : Int, 0 ≤ s ∧ s * s ≤ wrap ((a + d) ^ 2 - 4 * (a * d - b * c)) ∧
        wrap ((a + d) ^ 2 - 4 * (a * d - b * c)) < (s + 1) * (s + 1) ∧
        Machine.Matrix.eigenValues (Matrix.mk [[a, b], [c, d]]) =
          some (.ok [Int.tdiv (wrap (a + d + s)) 2, Int.tdiv (wrap (a + d - s)) 2]) := by
    intro a b c d hD
    have hsq : (a + d) ^ 2 - 4 * (a * d - b * c) = (a + d) * (a + d) - 4 * (a * d - b * c) := by
      ring
    rw [hsq] at hD ⊢
    obtain ⟨b0, b1, b2⟩ := sqrt_bounds _ hD
    exact ⟨_, b0, b1, b2, Machine.Matrix.eigenValues_two_by_two_wrapped a b c d hD⟩
  refine ⟨?_, hmain, ?_, by decide⟩
  · intro A
    by_cases hs : A.numRows ≠ 2 ∨ A.numCols ≠ 2
    · simp [Machine.Matrix.eigenValues, if_pos hs, hs]
    · rw [Machine.Matrix.eigenValues, if_neg hs]
      constructor
      · intro h
        exfalso
        revert h
        simp only [Machine.isqrt, Machine.idiv_two]
        split <;> simp
      · intro h
        exact absurd h hs
  · intro a b c d hr hD
    have hw := wrap_of_inRange _ hr
    obtain ⟨s, s0, s1, s2, hs⟩ := hmain a b c d (by rw [hw]; exact hD)
    rw [hw] at s1 s2
    refine ⟨s, s0, s1, s2, ?_⟩
    intro r1 r2
    rw [hs, wrap_of_inRange _ r1, wrap_of_inRange _ r2]

/-- C12, amended, at `[[2, 1], [1, 3]]` (discriminant `5`, `s = 2`) and at a 1×2
matrix. -/
theorem eigenValues_errors_and_int_value_witness :
    (0 : Int) ≤ wrap ((2 + 3) ^ 2 - 4 * (2 * 3 - 1 * 1)) ∧
    (∃ s : Int, 0 ≤ s ∧ s * s ≤ wrap ((2 + 3) ^ 2 - 4 * (2 * 3 - 1 * 1)) ∧
      wrap ((2 + 3) ^ 2 - 4 * (2 * 3 - 1 * 1)) < (s + 1) * (s + 1) ∧
      Machine.Matrix.eigenValues (Matrix.mk [[2, 1], [1, 3]]) =
        some (.ok [Int.tdiv (wrap (2 + 3 + s)) 2, Int.tdiv (wrap (2 + 3 - s)) 2])) ∧
    Machine.Matrix.eigenValues (Matrix.mk [[2, 1], [1, 3]]) = some (.ok [3, 1]) ∧
    Machine.Matrix.eigenValues (Matrix.mk [[2, 0]]) =
      some (.error
        (.invalid_argument "Eigenvalues calculation is only supported for 2x2 matrices")) :=
  ⟨by decide, eigenValues_errors_and_int_value.2.1 2 1 1 3 (by decide), by decide,
   (eigenValues_errors_and_int_value.1 (Matrix.mk [[2, 0]])).mpr (by decide)⟩

end Promenu
